import Mathlib

/-!
Verification of the muton mutation-testing tool.

The Rust sources are shallowly embedded: Rust `String`s that are manipulated
byte-wise (source texts, mutant old/new texts) are modelled as `List Nat`
(byte sequences); machine integers are modelled as `Nat`/`Int` (the involved
quantities never approach the 32/64-bit bounds in the modelled code paths);
fallible functions return `Except`; the SQLite store is modelled as a list of
rows with the row operations the SQL statements perform; the test subprocess
is modelled by an oracle describing how the run exits.
-/

namespace Muton

/-- Bytes of a string literal, used to embed Rust string constants. All the
constants embedded this way are ASCII, so the code points are the UTF-8
bytes. -/
def strBytes (s : String) : List Nat :=
  s.data.map (fun c => c.toNat)

/-- `types/outcomes.rs`: status of testing one mutant. -/
inductive Status where
  | uncaught
  | testFail
  | skipped
  | buildFail
  | timeout
  deriving DecidableEq, Repr

/-- `types/mutations.rs`: severity of a mutation kind. -/
inductive MutationSeverity where
  | high
  | medium
  | low
  deriving DecidableEq, Repr

/-- `MutationSeverity::to_numeric`: 0 = High, 1 = Medium, 2 = Low. -/
def MutationSeverity.toNumeric : MutationSeverity → Nat
  | .high => 0
  | .medium => 1
  | .low => 2

/-- `MutationSeverity::from_numeric`. -/
def MutationSeverity.fromNumeric (value : Nat) : MutationSeverity :=
  match value with
  | 0 => .high
  | 1 => .medium
  | _ => .low

/-- `types/mutants.rs`: a proposed byte-exact edit to one target.
Texts are byte sequences (`List Nat`). -/
structure Mutant where
  id : Int
  target_id : Int
  byte_offset : Nat
  line_offset : Nat
  old_text : List Nat
  new_text : List Nat
  mutation_slug : String
  deriving DecidableEq, Repr

/-- `types/outcomes.rs`: the persisted result of testing one mutant.
`time` models the UTC timestamp opaquely. -/
structure Outcome where
  mutant_id : Int
  status : Status
  output : String
  time : Nat
  duration_ms : Nat
  deriving DecidableEq, Repr

/-- `types/targets.rs`: a registered source file. The content hash is not
relevant to the verified claims and is omitted; `text` is the stored original
byte content, `language` the dialect tag. -/
structure Target where
  id : Int
  path : String
  text : List Nat
  language : String
  deriving DecidableEq, Repr

/-- Error cases of `Target::mutate`. `invalidInput` is the explicit
`io::ErrorKind::InvalidInput` return; `sliceOutOfRange` models the Rust
panic that slicing `content_bytes` raises when
`byte_offset + old_text.len()` exceeds the text length. -/
inductive MutateError where
  | invalidInput
  | sliceOutOfRange
  deriving DecidableEq, Repr

/-- `Target::mutate` (`types/targets.rs`): splice `new_text` over the bytes
`[byte_offset, byte_offset + |old_text|)` of the stored text. The UTF-8
re-validation step of the Rust code is identity in the byte model. -/
def Target.mutate (t : Target) (m : Mutant) : Except MutateError (List Nat) :=
  if m.target_id ≠ t.id ∧ m.target_id ≠ 0 then
    .error .invalidInput
  else if t.text.length < m.byte_offset + m.old_text.length then
    .error .sliceOutOfRange
  else
    .ok (t.text.take m.byte_offset ++ m.new_text ++
      t.text.drop (m.byte_offset + m.old_text.length))

/-- `Mutant::get_lines` (`types/mutants.rs`): 1-based inclusive line span of
the edit, derived from `line_offset` and the newlines inside `old_text`. -/
def Mutant.getLines (m : Mutant) : Nat × Nat :=
  let newlineCount := m.old_text.count 10
  (m.line_offset + 1, m.line_offset + 1 + newlineCount)

/-- The list of lines `line_start..=line_end` iterated by the runner. -/
def Mutant.lineList (m : Mutant) : List Nat :=
  List.range' (m.line_offset + 1) (m.old_text.count 10 + 1)

section Reporter

/-- `cmds/print/outcomes.rs`: caught/eligible tally. -/
structure OutcomeCounter where
  eligible : Nat
  caught : Nat
  deriving DecidableEq, Repr

/-- `OutcomeCounter::new`. -/
def OutcomeCounter.new : OutcomeCounter := ⟨0, 0⟩

/-- `OutcomeCounter::record`: count every status other than Skipped and
BuildFail as eligible; count TestFail as caught. -/
def OutcomeCounter.record (c : OutcomeCounter) (status : Status) : OutcomeCounter :=
  if status ≠ Status.skipped ∧ status ≠ Status.buildFail then
    { eligible := c.eligible + 1
      caught := if status = Status.testFail then c.caught + 1 else c.caught }
  else
    c

/-- The four counters maintained by `execute` in `cmds/print/outcomes.rs`. -/
structure SummaryCounters where
  overall : OutcomeCounter
  high : OutcomeCounter
  medium : OutcomeCounter
  low : OutcomeCounter
  deriving DecidableEq, Repr

def SummaryCounters.new : SummaryCounters :=
  ⟨OutcomeCounter.new, OutcomeCounter.new, OutcomeCounter.new, OutcomeCounter.new⟩

/-- One iteration of the outcome loop of `execute`: record the status in the
overall counter and in the severity bucket given by the catalog lookup
(`get_severity_by_slug`, passed in as `sevOf`), defaulting to Low. -/
def SummaryCounters.recordOutcome (sevOf : String → String → Option MutationSeverity)
    (language : String) (cs : SummaryCounters) (p : Status × String) : SummaryCounters :=
  let cs := { cs with overall := cs.overall.record p.1 }
  match (sevOf p.2 language).getD MutationSeverity.low with
  | .high => { cs with high := cs.high.record p.1 }
  | .medium => { cs with medium := cs.medium.record p.1 }
  | .low => { cs with low := cs.low.record p.1 }

/-- The campaign-summary tally of `execute` over the (status, slug) pairs of
a target's outcomes, in iteration order. -/
def summarizeOutcomes (sevOf : String → String → Option MutationSeverity)
    (language : String) (outcomes : List (Status × String)) : SummaryCounters :=
  outcomes.foldl (SummaryCounters.recordOutcome sevOf language) SummaryCounters.new

end Reporter

section Baseline

/-- Timeout selection of `TestRunner::new_with_baseline` (`runner.rs`):
the baseline duration is rounded up to whole seconds (`div_ceil(1000)`),
the recommended timeout is twice that, and a user timeout below the baseline
is rejected with `InvalidInput("Timeout too short")`. -/
def determineTimeout (baselineDurationMs : Nat) (userTimeout : Option Nat) :
    Except String Nat :=
  let baselineDurationSecs := (baselineDurationMs + 999) / 1000
  let recommendedTimeout := baselineDurationSecs * 2
  match userTimeout with
  | some user =>
      if user < baselineDurationSecs then
        .error "Timeout too short"
      else
        -- the `user < recommended_timeout` branch only logs a warning
        .ok user
  | none => .ok recommendedTimeout

end Baseline

section Store

/-- `SELECT ... FROM outcomes WHERE mutant_id = ?` on the modelled rows. -/
def lookupOutcome (rows : List Outcome) (mid : Int) : Option Outcome :=
  rows.find? (fun r => r.mutant_id == mid)

/-- `MutonStore::add_outcome` (`store.rs`): if a row for the mutant id
exists, update its status, output, time and duration; otherwise insert a
new row. -/
def addOutcome (rows : List Outcome) (oc : Outcome) : List Outcome :=
  match lookupOutcome rows oc.mutant_id with
  | some _ =>
      rows.map (fun r =>
        if r.mutant_id == oc.mutant_id then
          { r with status := oc.status, output := oc.output,
                   time := oc.time, duration_ms := oc.duration_ms }
        else r)
  | none => rows ++ [oc]

/-- At most one outcome row per mutant id. -/
def AtMostOnePerMutant (rows : List Outcome) : Prop :=
  ∀ mid : Int, (rows.filter (fun r => r.mutant_id == mid)).length ≤ 1

end Store

section CST

/-- The node data tree-sitter exposes: kind string, byte span, and the
named/missing/error flags. -/
structure CNode where
  kind : String
  startByte : Nat
  endByte : Nat
  isNamedNode : Bool
  isMissingNode : Bool
  isErrorNode : Bool
  deriving DecidableEq, Repr

/-- A concrete syntax tree. Each child is optionally tagged with the
grammar field name under which it is attached to its parent. -/
inductive CTree where
  | node (info : CNode) (children : List (Option String × CTree))

def CTree.info : CTree → CNode
  | .node i _ => i

def CTree.childEntries : CTree → List (Option String × CTree)
  | .node _ cs => cs

def CTree.kind (t : CTree) : String := t.info.kind

def CTree.startByte (t : CTree) : Nat := t.info.startByte

def CTree.endByte (t : CTree) : Nat := t.info.endByte

/-- `node.children(..)` — all children in order. -/
def CTree.childList (t : CTree) : List CTree := t.childEntries.map (fun c => c.2)

/-- `node.child(0)`. -/
def CTree.firstChild (t : CTree) : Option CTree := t.childList.head?

/-- `node.child_by_field_name(name)`. -/
def CTree.childByFieldName (t : CTree) (name : String) : Option CTree :=
  (t.childEntries.find? (fun c => c.1 == some name)).map (fun c => c.2)

/-- `node_text` (`mutations/common/utils.rs`): `source[start_byte..end_byte]`. -/
def nodeText (source : List Nat) (t : CTree) : List Nat :=
  (source.drop t.startByte).take (t.endByte - t.startByte)

/-- `is_in_comment` (`mutations/common/utils.rs`): a node is in a comment if
its own kind is `comment` or some ancestor's kind is `comment`. The parent
chain of the Rust code is the accumulated ancestor list `anc`. -/
def isInComment (t : CTree) (anc : List CNode) : Bool :=
  t.kind == "comment" || anc.any (fun a => a.kind == "comment")

mutual
/-- `visit_nodes_with_cursor`: preorder traversal, paired with the ancestor
chain (nearest ancestor first) that the Rust code reaches via `parent()`. -/
def preorderT (anc : List CNode) : CTree → List (List CNode × CTree)
  | .node i cs => (anc, .node i cs) :: preorderL (i :: anc) cs

def preorderL (anc : List CNode) : List (Option String × CTree) → List (List CNode × CTree)
  | [] => []
  | c :: rest => preorderT anc c.2 ++ preorderL anc rest
end

/-- `calculate_line_offset` (`mutations/common/utils.rs`): newlines among the
first `byte_offset` bytes of the source. -/
def calculateLineOffset (source : List Nat) (byteOffset : Nat) : Nat :=
  ((source.take byteOffset).filter (fun b => b == 10)).length

/-- `create_mutant` (`mutations/common/utils.rs`). -/
def createMutant (target : Target) (node : CTree) (source : List Nat)
    (slug : String) (newText : List Nat) : Mutant :=
  { id := 0
    target_id := target.id
    byte_offset := node.startByte
    line_offset := calculateLineOffset source node.startByte
    old_text := nodeText source node
    new_text := newText
    mutation_slug := slug }

/-- `is_punctuation_kind` (`mutations/common/patterns.rs`). -/
def isPunctuationKind (kind : String) : Bool :=
  kind == "(" || kind == ")" || kind == ","

/-- `is_keyword_kind`. -/
def isKeywordKind (kind : String) (keywords : List String) : Bool :=
  keywords.contains kind

/-- `has_ancestor_with_kind`, over the accumulated ancestor chain. -/
def hasAncestorWithKind (anc : List CNode) (kinds : List String) : Bool :=
  anc.any (fun a => kinds.contains a.kind)

/-- `first_named_child_after_keyword`: the first child that is not missing,
not an error, not a keyword, not punctuation, and is named. -/
def firstNamedChildAfterKeyword (t : CTree) (keywords : List String) : Option CTree :=
  t.childList.find? (fun child =>
    !child.info.isMissingNode && !child.info.isErrorNode &&
    !isKeywordKind child.kind keywords && !isPunctuationKind child.kind &&
    child.info.isNamedNode)

/-- ASCII whitespace, for the byte-level rendering of `str::trim_start` /
`str::trim_end` (the modelled sources are ASCII). -/
def isWsByte (b : Nat) : Bool :=
  b == 32 || b == 9 || b == 10 || b == 11 || b == 12 || b == 13

/-- `str::replace(pat, rep)` at byte level. The call sites only use the
non-empty patterns "break" and "continue". -/
def replaceAll (pat rep : List Nat) : List Nat → List Nat
  | [] => []
  | b :: rest =>
      if pat ≠ [] ∧ pat.isPrefixOf (b :: rest) then
        -- dropping the matched pattern: `(b :: rest).drop pat.length`
        rep ++ replaceAll pat rep (rest.drop (pat.length - 1))
      else
        b :: replaceAll pat rep rest
  termination_by l => l.length
  decreasing_by
    · simp only [List.length_drop, List.length_cons]
      omega
    · simp

end CST

section Patterns

/-- Per-node emission of `replace_field_for_nodes_of_kind`
(`mutations/common/patterns.rs`). -/
def replaceFieldEmit (target : Target) (source : List Nat) (nodeKind fieldName : String)
    (slug : String) (newText : List Nat) (p : List CNode × CTree) : List Mutant :=
  if p.2.kind == nodeKind && !isInComment p.2 p.1 then
    match p.2.childByFieldName fieldName with
    | some fieldNode => [createMutant target fieldNode source slug newText]
    | none => []
  else []

/-- `replace_field_for_nodes_of_kind`. -/
def replaceFieldForNodesOfKind (target : Target) (root : CTree) (source : List Nat)
    (nodeKind fieldName slug : String) (newText : List Nat) : List Mutant :=
  (preorderT [] root).flatMap (replaceFieldEmit target source nodeKind fieldName slug newText)

/-- Per-node emission of `replace_entire_nodes_of_kinds_filtered`. -/
def replaceEntireEmit (target : Target) (source : List Nat) (nodeKinds : List String)
    (slug : String) (replacementText : List Nat) (shouldReplace : CTree → List Nat → Bool)
    (p : List CNode × CTree) : List Mutant :=
  if nodeKinds.contains p.2.kind && !isInComment p.2 p.1 &&
      !hasAncestorWithKind p.1 nodeKinds && shouldReplace p.2 source then
    [createMutant target p.2 source slug replacementText]
  else []

/-- `replace_entire_nodes_of_kinds_filtered`. -/
def replaceEntireNodesOfKindsFiltered (target : Target) (root : CTree) (source : List Nat)
    (nodeKinds : List String) (slug : String) (replacementText : List Nat)
    (shouldReplace : CTree → List Nat → Bool) : List Mutant :=
  (preorderT [] root).flatMap
    (replaceEntireEmit target source nodeKinds slug replacementText shouldReplace)

/-- Per-node emission of `swap_adjacent_arguments_for_kinds`: collect the
non-punctuation children of the argument container and swap each adjacent
pair. -/
def swapArgsEmit (target : Target) (source : List Nat) (nodeKinds : List String)
    (argsFieldName slug : String) (p : List CNode × CTree) : List Mutant :=
  if nodeKinds.contains p.2.kind && !isInComment p.2 p.1 then
    match p.2.childByFieldName argsFieldName with
    | some argsNode =>
        let args := argsNode.childList.filter (fun child =>
          !(child.kind == "(") && !(child.kind == ")") && !(child.kind == ","))
        if args.length ≥ 2 then
          (args.zip args.tail).map (fun ab =>
            let start := ab.1.startByte
            let stop := ab.2.endByte
            { id := 0
              target_id := target.id
              mutation_slug := slug
              byte_offset := start
              line_offset := calculateLineOffset source start
              old_text := (source.drop start).take (stop - start)
              new_text := nodeText source ab.2 ++ strBytes ", " ++ nodeText source ab.1 })
        else []
    | none => []
  else []

/-- `swap_adjacent_arguments_for_kinds`. -/
def swapAdjacentArgumentsForKinds (target : Target) (root : CTree) (source : List Nat)
    (nodeKinds : List String) (argsFieldName slug : String) : List Mutant :=
  (preorderT [] root).flatMap (swapArgsEmit target source nodeKinds argsFieldName slug)

/-- Per-node emission of `flip_boolean_literals_by_kind`. -/
def flipBooleanEmit (target : Target) (source : List Nat) (booleanNodeKind slug : String)
    (p : List CNode × CTree) : List Mutant :=
  if p.2.kind == booleanNodeKind && !isInComment p.2 p.1 then
    let old := nodeText source p.2
    let new := if old = strBytes "true" then strBytes "false" else strBytes "true"
    [createMutant target p.2 source slug new]
  else []

/-- `flip_boolean_literals_by_kind`. -/
def flipBooleanLiteralsByKind (target : Target) (root : CTree) (source : List Nat)
    (booleanNodeKind slug : String) : List Mutant :=
  (preorderT [] root).flatMap (flipBooleanEmit target source booleanNodeKind slug)

/-- Per-node emission of `shuffle_operators_in_expressions`: for every direct
child whose text is an operator of the set, one mutant per other operator. -/
def shuffleOperatorsEmit (target : Target) (source : List Nat)
    (exprNodeKinds : List String) (operators : List (List Nat)) (slug : String)
    (p : List CNode × CTree) : List Mutant :=
  if exprNodeKinds.contains p.2.kind && !isInComment p.2 p.1 then
    p.2.childList.flatMap (fun child =>
      let token := nodeText source child
      if operators.contains token then
        (operators.filter (fun replacement => replacement ≠ token)).map (fun replacement =>
          { id := 0
            target_id := target.id
            mutation_slug := slug
            byte_offset := child.startByte
            line_offset := calculateLineOffset source child.startByte
            old_text := token
            new_text := replacement })
      else [])
  else []

/-- `shuffle_operators_in_expressions`. -/
def shuffleOperatorsInExpressions (target : Target) (root : CTree) (source : List Nat)
    (exprNodeKinds : List String) (operators : List (List Nat)) (slug : String) : List Mutant :=
  (preorderT [] root).flatMap (shuffleOperatorsEmit target source exprNodeKinds operators slug)

/-- Per-node emission of `wrap_nodes_of_kinds_with_wrappers`. -/
def wrapEmit (target : Target) (source : List Nat) (nodeKinds : List String)
    (slug : String) (pre suf : List Nat) (p : List CNode × CTree) : List Mutant :=
  if nodeKinds.contains p.2.kind && !isInComment p.2 p.1 &&
      !hasAncestorWithKind p.1 nodeKinds then
    [createMutant target p.2 source slug (pre ++ nodeText source p.2 ++ suf)]
  else []

/-- `wrap_nodes_of_kinds_with_wrappers`. -/
def wrapNodesOfKindsWithWrappers (target : Target) (root : CTree) (source : List Nat)
    (nodeKinds : List String) (slug : String) (pre suf : List Nat) : List Mutant :=
  (preorderT [] root).flatMap (wrapEmit target source nodeKinds slug pre suf)

/-- The condition replacement applied to a chosen condition node: keep the
outer parentheses when the trimmed text starts with `(` and ends with `)`. -/
def conditionNewText (source : List Nat) (condNode : CTree) (replacement : List Nat) :
    List Nat :=
  let oldText := nodeText source condNode
  let trimmedStart := oldText.dropWhile isWsByte
  let trimmedEnd := (oldText.reverse.dropWhile isWsByte).reverse
  let needsParens := trimmedStart.head? == some 40 && trimmedEnd.getLast? == some 41
  if needsParens then 40 :: replacement ++ [41] else replacement

/-- Per-node emission of `replace_condition_for_nodes_of_kind`: field-first,
positional fallback skipping keywords and punctuation. -/
def replaceConditionEmit (target : Target) (source : List Nat)
    (nodeKind conditionFieldName : String) (keywordKinds : List String)
    (slug : String) (replacement : List Nat) (p : List CNode × CTree) : List Mutant :=
  if p.2.kind == nodeKind && !isInComment p.2 p.1 then
    match p.2.childByFieldName conditionFieldName with
    | some fieldNode =>
        [createMutant target fieldNode source slug (conditionNewText source fieldNode replacement)]
    | none =>
        match firstNamedChildAfterKeyword p.2 keywordKinds with
        | some cond =>
            if !(cond.kind == ";") && !(cond.kind == "\x7b") then
              [createMutant target cond source slug (conditionNewText source cond replacement)]
            else []
        | none => []
  else []

/-- `replace_condition_for_nodes_of_kind`. -/
def replaceConditionForNodesOfKind (target : Target) (root : CTree) (source : List Nat)
    (nodeKind conditionFieldName : String) (keywordKinds : List String)
    (slug : String) (replacement : List Nat) : List Mutant :=
  (preorderT [] root).flatMap
    (replaceConditionEmit target source nodeKind conditionFieldName keywordKinds slug replacement)

/-- `replace_repeat_count_for_nodes_of_kind` delegates to the condition
replacement. -/
def replaceRepeatCountForNodesOfKind (target : Target) (root : CTree) (source : List Nat)
    (nodeKind countFieldName : String) (keywordKinds : List String)
    (slug : String) (replacement : List Nat) : List Mutant :=
  replaceConditionForNodesOfKind target root source nodeKind countFieldName keywordKinds
    slug replacement

/-- Per-node emission of `replace_first_argument_for_calls_matching`: for a
call whose callee text matches, replace the first non-punctuation child of
the argument container. -/
def replaceFirstArgEmit (target : Target) (source : List Nat)
    (callNodeKinds : List String) (argsFieldName : String) (altArgsKinds : List String)
    (slug : String) (calleeMatches : List Nat → Bool) (replacement : List Nat)
    (p : List CNode × CTree) : List Mutant :=
  if callNodeKinds.contains p.2.kind && !isInComment p.2 p.1 then
    match p.2.firstChild with
    | none => []
    | some calleeNode =>
        if !calleeMatches (nodeText source calleeNode) then []
        else
          let argsNodeOpt := (p.2.childByFieldName argsFieldName).orElse (fun _ =>
            p.2.childList.find? (fun child =>
              altArgsKinds.contains child.kind || child.kind == argsFieldName))
          match argsNodeOpt with
          | some argsNode =>
              match argsNode.childList.find? (fun child => !isPunctuationKind child.kind) with
              | some firstArg => [createMutant target firstArg source slug replacement]
              | none => []
          | none => []
  else []

/-- `replace_first_argument_for_calls_matching`. -/
def replaceFirstArgumentForCallsMatching (target : Target) (root : CTree) (source : List Nat)
    (callNodeKinds : List String) (argsFieldName : String) (altArgsKinds : List String)
    (slug : String) (calleeMatches : List Nat → Bool) (replacement : List Nat) : List Mutant :=
  (preorderT [] root).flatMap
    (replaceFirstArgEmit target source callNodeKinds argsFieldName altArgsKinds slug
      calleeMatches replacement)

/-- Per-node emission of `swap_loop_control_statements`: exchange
`break` ↔ `continue` in the node's text. -/
def swapLoopControlEmit (target : Target) (source : List Nat)
    (breakKind continueKind slug : String) (p : List CNode × CTree) : List Mutant :=
  if isInComment p.2 p.1 then []
  else if p.2.kind == breakKind || p.2.kind == continueKind then
    let old := nodeText source p.2
    let new :=
      if p.2.kind == breakKind then
        replaceAll (strBytes "break") (strBytes "continue") old
      else
        replaceAll (strBytes "continue") (strBytes "break") old
    [createMutant target p.2 source slug new]
  else []

/-- `swap_loop_control_statements`. -/
def swapLoopControlStatements (target : Target) (root : CTree) (source : List Nat)
    (breakKind continueKind slug : String) : List Mutant :=
  (preorderT [] root).flatMap (swapLoopControlEmit target source breakKind continueKind slug)

/-- Byte-exactness of a mutant against a source text: the bytes at
`[byte_offset, byte_offset + |old_text|)` are exactly `old_text`. -/
def ByteExact (source : List Nat) (m : Mutant) : Prop :=
  (source.drop m.byte_offset).take m.old_text.length = m.old_text

instance (source : List Nat) (m : Mutant) : Decidable (ByteExact source m) := by
  unfold ByteExact; infer_instance

/-- Correctness of the stored line offset: it counts the newline bytes
before `byte_offset`. -/
def LineOffsetCorrect (source : List Nat) (m : Mutant) : Prop :=
  m.line_offset = ((source.take m.byte_offset).filter (fun b => b == 10)).length

instance (source : List Nat) (m : Mutant) : Decidable (LineOffsetCorrect source m) := by
  unfold LineOffsetCorrect; infer_instance

end Patterns

section Runner

/-- The catalog lookup `get_severity_by_slug(slug, language)`
(`mutations/mod.rs`), abstracted over the static per-dialect tables. -/
abbrev SeverityLookup := String → String → Option MutationSeverity

/-- How one invocation of `run_and_wait` exits: the child exits (with
success flag and captured output), the timeout elapses, the cancellation
flag is observed unset, or spawning/waiting fails. -/
inductive RunExit where
  | exited (success : Bool) (output : String)
  | timedOut (output : String)
  | cancelled
  | spawnFailed
  deriving DecidableEq, Repr

/-- Errors propagated out of the runner's per-mutant path. -/
inductive RunnerError where
  | mutateFailed (e : MutateError)
  | slugNotFound (slug : String)
  | runFailed
  deriving DecidableEq, Repr

/-- `TestRunner::run_and_wait` (`runner.rs`), as a function of the exit
condition. The second component records whether the child was killed (the
timeout and cancellation branches `kill()` and `wait()` the child). -/
def runAndWait : RunExit → Except Bool (Status × String) × Bool
  | .exited true output => (.ok (.uncaught, output), false)
  | .exited false output => (.ok (.testFail, output), false)
  | .timedOut output => (.ok (.timeout, output), true)
  | .cancelled => (.error true, true)   -- io::ErrorKind::Interrupted
  | .spawnFailed => (.error false, false)

/-- Mutable state of `TestRunner` together with the shared world it acts on:
the contents of the file at the target's path and the outcome rows of the
store. `lastChildKilled` records whether the most recent `run_and_wait`
killed its child. -/
structure RState where
  fileContents : List Nat
  hasActiveMutation : Bool
  currentTarget : Option Target
  uncaughtHighSevLines : List Nat
  uncaughtMedSevLines : List Nat
  outcomes : List Outcome
  lastChildKilled : Bool

/-- Per-mutant oracle: the cancellation flag observed at the top of the
mutant loop, the exit condition of the test run, and the wall-clock values
observed (`Utc::now()` and the elapsed duration). -/
structure StepOracle where
  running : Bool
  exit : RunExit
  now : Nat
  durationMs : Nat

/-- `HashSet::insert` on the modelled line sets. -/
def insertLine (s : List Nat) (x : Nat) : List Nat :=
  if x ∈ s then s else x :: s

def insertLines (s : List Nat) (xs : List Nat) : List Nat :=
  xs.foldl insertLine s

/-- `TestRunner::test_mutant` (`runner.rs`): apply the mutation, run the
test, track uncaught high/medium lines, record the outcome, restore the
file. An `Interrupted` run restores the file and returns without an
outcome; any other error propagates with the mutation still on disk. -/
def testMutant (sevOf : SeverityLookup) (t : Target) (m : Mutant) (o : StepOracle)
    (st : RState) : RState × Option RunnerError :=
  match t.mutate m with
  | .error e => (st, some (.mutateFailed e))
  | .ok mutatedTarget =>
    let st := { st with hasActiveMutation := true, fileContents := mutatedTarget }
    let (result, killed) := runAndWait o.exit
    let st := { st with lastChildKilled := killed }
    match result with
    | .error true =>
        -- interrupted: just restore the file and exit without an outcome
        ({ st with fileContents := t.text, hasActiveMutation := false }, none)
    | .error false => (st, some .runFailed)
    | .ok (status, output) =>
        let tracked : Except RunnerError RState :=
          if status = Status.uncaught then
            match sevOf m.mutation_slug t.language with
            | none => .error (.slugNotFound m.mutation_slug)
            | some sev =>
                if sev.toNumeric = 0 then
                  .ok { st with uncaughtHighSevLines :=
                          insertLines st.uncaughtHighSevLines m.lineList }
                else if sev.toNumeric = 1 then
                  .ok { st with uncaughtMedSevLines :=
                          insertLines st.uncaughtMedSevLines m.lineList }
                else .ok st
          else .ok st
        match tracked with
        | .error e => (st, some e)
        | .ok st =>
            let outcome : Outcome :=
              { mutant_id := m.id, status := status, output := output,
                time := o.now, duration_ms := o.durationMs }
            let st := { st with outcomes := addOutcome st.outcomes outcome }
            ({ st with fileContents := t.text, hasActiveMutation := false }, none)

/-- The fixed message stored with an outcome skipped by the severity
pruning policy. -/
def skipMessage : String :=
  "Skipped due to uncaught higher severity mutation on the same line"

/-- The Skipped outcome the pruning policy records (duration 0). -/
def skippedOutcome (mid : Int) (now : Nat) : Outcome :=
  { mutant_id := mid, status := .skipped, output := skipMessage,
    time := now, duration_ms := 0 }

/-- The pruning test of `run_mutations_for_target`: Medium is skipped on
overlap with uncaught High lines, Low on overlap with uncaught High or
Medium lines, High never. -/
def shouldSkipMutant (st : RState) (sevNum : Nat) (m : Mutant) : Bool :=
  match sevNum with
  | 1 => m.lineList.any (fun line => line ∈ st.uncaughtHighSevLines)
  | 2 => m.lineList.any (fun line =>
      line ∈ st.uncaughtHighSevLines ∨ line ∈ st.uncaughtMedSevLines)
  | _ => false

/-- The body of the per-mutant loop of `run_mutations_for_target`
(`runner.rs`): skip mutants with a non-Timeout outcome, apply the severity
pruning policy (in non-comprehensive mode), apply the slug allow-list,
then test the mutant. -/
def processStep (sevOf : SeverityLookup) (comprehensive : Bool)
    (allowedSlugs : Option (List String)) (t : Target) (m : Mutant) (o : StepOracle)
    (st : RState) : RState × Option RunnerError :=
  -- skip if this mutation already has an outcome, unless it is a Timeout
  let hasValidOutcome : Bool :=
    match lookupOutcome st.outcomes m.id with
    | some outcome => outcome.status != Status.timeout
    | none => false
  if hasValidOutcome then (st, none)
  else
    -- severity pruning (only without comprehensive mode)
    let pruned : Except RunnerError Bool :=
      if !comprehensive then
        match sevOf m.mutation_slug t.language with
        | none => .error (.slugNotFound m.mutation_slug)
        | some sev => .ok (shouldSkipMutant st sev.toNumeric m)
      else .ok false
    match pruned with
    | .error e => (st, some e)
    | .ok true =>
        ({ st with outcomes := addOutcome st.outcomes (skippedOutcome m.id o.now) }, none)
    | .ok false =>
        -- slug allow-list: skip silently when not listed
        let filteredOut : Bool :=
          match allowedSlugs with
          | some slugs => !slugs.isEmpty && !slugs.contains m.mutation_slug
          | none => false
        if filteredOut then (st, none)
        else testMutant sevOf t m o st

/-- The per-mutant loop of `run_mutations_for_target`: check the
cancellation flag before each mutant, and stop on a propagated error. -/
def runLoop (sevOf : SeverityLookup) (comprehensive : Bool)
    (allowedSlugs : Option (List String)) (t : Target) :
    RState → List (Mutant × StepOracle) → RState × Option RunnerError
  | st, [] => (st, none)
  | st, (m, o) :: rest =>
      if o.running then
        match processStep sevOf comprehensive allowedSlugs t m o st with
        | (st', none) => runLoop sevOf comprehensive allowedSlugs t st' rest
        | (st', some e) => (st', some e)
      else (st, none)

/-- Severity sort key of `run_mutations_for_target`: unknown slugs default
to Low. -/
def sevKey (sevOf : SeverityLookup) (language : String) (m : Mutant) : Nat :=
  ((sevOf m.mutation_slug language).map MutationSeverity.toNumeric).getD 2

/-- `run_mutations_for_target` (`runner.rs`): set the current target, clear
the tracked line sets, sort the mutants by severity (stably), run the loop,
and clear the current target on normal completion. Each mutant is paired
with its oracle before sorting; the pairing travels with the mutant. -/
def runMutationsForTarget (sevOf : SeverityLookup) (comprehensive : Bool)
    (allowedSlugs : Option (List String)) (t : Target)
    (steps : List (Mutant × StepOracle)) (st : RState) : RState × Option RunnerError :=
  let st := { st with
    currentTarget := some t
    uncaughtHighSevLines := []
    uncaughtMedSevLines := [] }
  let sorted := steps.mergeSort (fun a b =>
    sevKey sevOf t.language a.1 ≤ sevKey sevOf t.language b.1)
  match runLoop sevOf comprehensive allowedSlugs t st sorted with
  | (st', none) => ({ st' with currentTarget := none }, none)
  | (st', some e) => (st', some e)

/-- `TestRunner::cleanup`: restore the original file when a mutation is
still active and a current target is held. -/
def cleanup (st : RState) : RState :=
  if st.hasActiveMutation then
    match st.currentTarget with
    | some target => { st with fileContents := target.text, hasActiveMutation := false }
    | none => st
  else st

/-- The `Drop` impl of `TestRunner`: run `cleanup` when a mutation is still
active. -/
def dropRunner (st : RState) : RState :=
  if st.hasActiveMutation then cleanup st else st

/-- `run_mutation_campaign` over a single target: run the inner campaign,
then always clean up an active mutation, whether or not an error occurred. -/
def runMutationCampaign (sevOf : SeverityLookup) (comprehensive : Bool)
    (allowedSlugs : Option (List String)) (t : Target)
    (steps : List (Mutant × StepOracle)) (st : RState) : RState × Option RunnerError :=
  let (st', result) := runMutationsForTarget sevOf comprehensive allowedSlugs t steps st
  let st'' := if st'.hasActiveMutation then cleanup st' else st'
  (st'', result)

end Runner

section MutateTheorems

/-- The stored text splits around a byte-exact mutant. -/
theorem text_split_of_byteExact (t : Target) (m : Mutant)
    (hexact : ByteExact t.text m) :
    t.text = t.text.take m.byte_offset ++ m.old_text ++
      t.text.drop (m.byte_offset + m.old_text.length) := by
  unfold ByteExact at hexact
  conv_lhs => rw [← List.take_append_drop m.byte_offset t.text]
  rw [List.append_assoc]
  congr 1
  conv_lhs => rw [← List.take_append_drop m.old_text.length (t.text.drop m.byte_offset)]
  rw [hexact, List.drop_drop]

/-- C5: for a mutant owned by the target (or with owner id 0) satisfying the
byte-exactness precondition, `Target::mutate` returns
`text[..offset] ++ new_text ++ text[offset+|old_text|..]`, and the result
differs from the stored text exactly when `old_text ≠ new_text`. -/
theorem mutate_splices_and_differs_iff (t : Target) (m : Mutant)
    (hid : m.target_id = t.id ∨ m.target_id = 0)
    (hlen : m.byte_offset + m.old_text.length ≤ t.text.length)
    (hexact : ByteExact t.text m) :
    t.mutate m = .ok (t.text.take m.byte_offset ++ m.new_text ++
      t.text.drop (m.byte_offset + m.old_text.length)) ∧
    ((t.text.take m.byte_offset ++ m.new_text ++
      t.text.drop (m.byte_offset + m.old_text.length)) ≠ t.text ↔
      m.old_text ≠ m.new_text) := by
  constructor
  · unfold Target.mutate
    rw [if_neg, if_neg]
    · omega
    · rcases hid with h | h <;> simp [h]
  · rw [not_iff_not]
    constructor
    · intro h
      have h2 : t.text.take m.byte_offset ++ m.new_text ++
          t.text.drop (m.byte_offset + m.old_text.length) =
          t.text.take m.byte_offset ++ m.old_text ++
          t.text.drop (m.byte_offset + m.old_text.length) :=
        h.trans (text_split_of_byteExact t m hexact)
      rw [List.append_assoc, List.append_assoc] at h2
      exact (List.append_cancel_right (List.append_cancel_left h2)).symm
    · intro h
      conv_rhs => rw [text_split_of_byteExact t m hexact]
      rw [h]

/-- Witness for C5: a concrete mutant replacing byte 1 of "abc" by "xy". -/
theorem mutate_splices_and_differs_iff_witness :
    (Target.mutate ⟨1, "p", strBytes "abc", "FunC"⟩
      ⟨5, 1, 1, 0, strBytes "b", strBytes "xy", "ER"⟩ = .ok (strBytes "axyc")) ∧
    strBytes "axyc" ≠ strBytes "abc" := by
  have h := mutate_splices_and_differs_iff ⟨1, "p", strBytes "abc", "FunC"⟩
    ⟨5, 1, 1, 0, strBytes "b", strBytes "xy", "ER"⟩
    (Or.inl rfl) (by decide) (by decide)
  exact ⟨h.1.trans (congrArg Except.ok (by decide)), by decide⟩

/-- C10: a mutant whose owner id is neither the target's id nor 0 is
rejected with an `InvalidInput` error and no mutated text is produced, and
a mutant with owner id 0 is applied exactly as if it carried the target's
own id. -/
theorem mutate_foreign_mutant_rejected (t : Target) (m : Mutant)
    (hid : m.target_id ≠ t.id ∧ m.target_id ≠ 0) :
    t.mutate m = .error .invalidInput ∧
    (∀ m' : Mutant, t.mutate { m' with target_id := 0 } =
      t.mutate { m' with target_id := t.id }) := by
  constructor
  · unfold Target.mutate
    rw [if_pos hid]
  · intro m'
    unfold Target.mutate
    simp

/-- Witness for C10: target id 1, mutant owner id 2. -/
theorem mutate_foreign_mutant_rejected_witness :
    Target.mutate ⟨1, "p", strBytes "abc", "FunC"⟩
      ⟨5, 2, 1, 0, strBytes "b", strBytes "xy", "ER"⟩ = .error .invalidInput :=
  (mutate_foreign_mutant_rejected ⟨1, "p", strBytes "abc", "FunC"⟩
    ⟨5, 2, 1, 0, strBytes "b", strBytes "xy", "ER"⟩ (by decide)).1

end MutateTheorems

section BaselineTheorems

/-- C4: with `d_base` the baseline runtime in milliseconds rounded up to
whole seconds, a user timeout below `d_base` fails with "Timeout too
short", any user timeout of at least `d_base` is accepted as given (the
band below `2·d_base` only warns), and without a user timeout the mutation
timeout is `2·d_base`. -/
theorem timeout_determination (baselineMs : Nat) :
    (∀ tUser, tUser < (baselineMs + 999) / 1000 →
      determineTimeout baselineMs (some tUser) = .error "Timeout too short") ∧
    (∀ tUser, (baselineMs + 999) / 1000 ≤ tUser → tUser < 2 * ((baselineMs + 999) / 1000) →
      determineTimeout baselineMs (some tUser) = .ok tUser) ∧
    (∀ tUser, 2 * ((baselineMs + 999) / 1000) ≤ tUser →
      determineTimeout baselineMs (some tUser) = .ok tUser) ∧
    determineTimeout baselineMs none = .ok (2 * ((baselineMs + 999) / 1000)) := by
  refine ⟨fun tUser h => ?_, fun tUser h _ => ?_, fun tUser h => ?_, ?_⟩
  · simp [determineTimeout, h]
  · have h' : ¬ tUser < (baselineMs + 999) / 1000 := by omega
    simp [determineTimeout, h']
  · have h' : ¬ tUser < (baselineMs + 999) / 1000 := by omega
    simp [determineTimeout, h']
  · simp [determineTimeout, Nat.mul_comm]

/-- Witness for C4: baseline 1500 ms, so `d_base = 2` seconds. -/
theorem timeout_determination_witness :
    determineTimeout 1500 (some 1) = .error "Timeout too short" ∧
    determineTimeout 1500 (some 3) = .ok 3 ∧
    determineTimeout 1500 (some 4) = .ok 4 ∧
    determineTimeout 1500 none = .ok 4 :=
  ⟨(timeout_determination 1500).1 1 (by decide),
   (timeout_determination 1500).2.1 3 (by decide) (by decide),
   (timeout_determination 1500).2.2.1 4 (by decide),
   (timeout_determination 1500).2.2.2⟩

end BaselineTheorems

section StoreTheorems

/-- The row update of `add_outcome`. -/
def updateRow (oc : Outcome) (r : Outcome) : Outcome :=
  if r.mutant_id == oc.mutant_id then
    { r with status := oc.status, output := oc.output,
             time := oc.time, duration_ms := oc.duration_ms }
  else r

theorem updateRow_id (oc r : Outcome) : (updateRow oc r).mutant_id = r.mutant_id := by
  unfold updateRow
  split <;> rfl

theorem addOutcome_eq_map (rows : List Outcome) (oc : Outcome)
    (h : (lookupOutcome rows oc.mutant_id).isSome) :
    addOutcome rows oc = rows.map (updateRow oc) := by
  unfold addOutcome updateRow
  match hl : lookupOutcome rows oc.mutant_id with
  | some _ => rfl
  | none => rw [hl] at h; simp at h

theorem find_map_updateRow (oc : Outcome) (rows : List Outcome)
    (h : ∃ r ∈ rows, r.mutant_id = oc.mutant_id) :
    (rows.map (updateRow oc)).find? (fun x => x.mutant_id == oc.mutant_id) = some oc := by
  induction rows with
  | nil => simp at h
  | cons a rest ih =>
      by_cases ha : a.mutant_id = oc.mutant_id
      · have hrow : updateRow oc a = oc := by
          unfold updateRow
          rw [if_pos (by simp [ha])]
          cases oc
          simp_all
        simp only [List.map_cons, List.find?_cons]
        rw [hrow]
        simp
      · simp only [List.map_cons, List.find?_cons]
        have : ((updateRow oc a).mutant_id == oc.mutant_id) = false := by
          rw [updateRow_id]; simp [ha]
        rw [this]
        apply ih
        rcases h with ⟨r, hr, hrid⟩
        rcases List.mem_cons.mp hr with rfl | hr'
        · exact absurd hrid ha
        · exact ⟨r, hr', hrid⟩

theorem filter_map_updateRow_length (oc : Outcome) (mid : Int) (rows : List Outcome) :
    ((rows.map (updateRow oc)).filter (fun r => r.mutant_id == mid)).length =
      (rows.filter (fun r => r.mutant_id == mid)).length := by
  induction rows with
  | nil => rfl
  | cons a rest ih =>
      simp only [List.map_cons, List.filter_cons, updateRow_id]
      split <;> simp [ih]

/-- C9: `add_outcome` is an upsert keyed by mutant id. It preserves the
at-most-one-row-per-mutant invariant; when no row exists for the mutant id
it inserts exactly one new row; when a row exists it replaces that row's
status, output, time and duration in place — the row count is unchanged and
the lookup now yields the new outcome — so a retest (e.g. after a Timeout)
overwrites rather than duplicates. -/
theorem add_outcome_upserts (rows : List Outcome) (oc : Outcome)
    (huniq : AtMostOnePerMutant rows) :
    AtMostOnePerMutant (addOutcome rows oc) ∧
    (lookupOutcome rows oc.mutant_id = none → addOutcome rows oc = rows ++ [oc]) ∧
    ((lookupOutcome rows oc.mutant_id).isSome →
      (addOutcome rows oc).length = rows.length ∧
      lookupOutcome (addOutcome rows oc) oc.mutant_id = some oc) := by
  refine ⟨?_, ?_, ?_⟩
  · intro mid
    match hl : lookupOutcome rows oc.mutant_id with
    | none =>
        unfold addOutcome
        rw [hl]
        rw [List.filter_append, List.length_append]
        by_cases hm : oc.mutant_id = mid
        · unfold lookupOutcome at hl
          have hnone : ∀ r ∈ rows, ¬ (r.mutant_id == mid) = true := by
            intro r hr hcontra
            have h' := List.find?_eq_none.mp hl r hr
            rw [← hm] at hcontra
            exact h' hcontra
          have : rows.filter (fun r => r.mutant_id == mid) = [] :=
            List.filter_eq_nil_iff.mpr hnone
          simp [this, hm]
        · have : ([oc].filter (fun r => r.mutant_id == mid)) = [] := by
            simp [hm]
          rw [this]
          simpa using huniq mid
    | some r =>
        rw [addOutcome_eq_map rows oc (by rw [hl]; rfl)]
        rw [filter_map_updateRow_length]
        exact huniq mid
  · intro h
    unfold addOutcome
    rw [h]
  · intro h
    rw [addOutcome_eq_map rows oc h]
    refine ⟨by simp, ?_⟩
    unfold lookupOutcome at h ⊢
    apply find_map_updateRow
    rcases Option.isSome_iff_exists.mp h with ⟨r, hr⟩
    have hmem := List.mem_of_find?_eq_some hr
    have hpred := List.find?_some hr
    exact ⟨r, hmem, by simpa using hpred⟩

/-- Witness for C9: replacing a Timeout outcome for mutant 7 overwrites it
in place. -/
theorem add_outcome_upserts_witness :
    addOutcome [⟨7, .timeout, "t", 1, 5⟩] ⟨7, .testFail, "f", 2, 9⟩ =
      [⟨7, .testFail, "f", 2, 9⟩] ∧
    lookupOutcome (addOutcome [⟨7, .timeout, "t", 1, 5⟩] ⟨7, .testFail, "f", 2, 9⟩) 7 =
      some ⟨7, .testFail, "f", 2, 9⟩ := by
  have h := add_outcome_upserts [⟨7, .timeout, "t", 1, 5⟩] ⟨7, .testFail, "f", 2, 9⟩
    (fun mid => by
      have hle := List.length_filter_le (fun r : Outcome => r.mutant_id == mid)
        [⟨7, .timeout, "t", 1, 5⟩]
      simpa using hle)
  exact ⟨by decide, (h.2.2 (by decide)).2⟩

end StoreTheorems

section ReporterTheorems

/-- Counterexample for C1: a Timeout outcome increments the denominator
(`eligible`) of the caught percentage, although its status is neither
TestFail nor Uncaught — so the denominator is not `TestFail + Uncaught`. -/
theorem caught_denominator_counterexample :
    (OutcomeCounter.new.record Status.timeout).eligible = 1 ∧
    OutcomeCounter.new.eligible = 0 ∧
    Status.timeout ≠ Status.testFail ∧ Status.timeout ≠ Status.uncaught := by
  decide

/-- The eligibility test of `OutcomeCounter::record`. -/
def isEligibleStatus (s : Status) : Bool :=
  !(s == Status.skipped) && !(s == Status.buildFail)

theorem record_eligible (c : OutcomeCounter) (s : Status) :
    (c.record s).eligible = c.eligible + (if isEligibleStatus s then 1 else 0) := by
  cases s <;> simp [OutcomeCounter.record, isEligibleStatus]

theorem record_caught (c : OutcomeCounter) (s : Status) :
    (c.record s).caught = c.caught + (if s == Status.testFail then 1 else 0) := by
  cases s <;> simp [OutcomeCounter.record]

theorem recordOutcome_overall (sevOf : String → String → Option MutationSeverity)
    (language : String) (cs : SummaryCounters) (p : Status × String) :
    (cs.recordOutcome sevOf language p).overall = cs.overall.record p.1 := by
  unfold SummaryCounters.recordOutcome
  split <;> rfl

theorem recordOutcome_bucket (sevOf : String → String → Option MutationSeverity)
    (language : String) (cs : SummaryCounters) (p : Status × String)
    (sev : MutationSeverity) :
    (match sev with
      | .high => (cs.recordOutcome sevOf language p).high
      | .medium => (cs.recordOutcome sevOf language p).medium
      | .low => (cs.recordOutcome sevOf language p).low) =
    (if (sevOf p.2 language).getD MutationSeverity.low = sev then
      (match sev with
        | .high => cs.high
        | .medium => cs.medium
        | .low => cs.low).record p.1
     else
      (match sev with
        | .high => cs.high
        | .medium => cs.medium
        | .low => cs.low)) := by
  unfold SummaryCounters.recordOutcome
  cases hs : (sevOf p.2 language).getD MutationSeverity.low <;> cases sev <;> simp_all

theorem foldl_record_overall_eligible (sevOf : String → String → Option MutationSeverity)
    (language : String) (l : List (Status × String)) :
    ∀ cs : SummaryCounters,
      (l.foldl (SummaryCounters.recordOutcome sevOf language) cs).overall.eligible =
        cs.overall.eligible + l.countP (fun p => isEligibleStatus p.1) := by
  induction l with
  | nil => intro cs; simp
  | cons p rest ih =>
      intro cs
      rw [List.foldl_cons, ih, List.countP_cons]
      rw [recordOutcome_overall, record_eligible]
      omega

theorem foldl_record_overall_caught (sevOf : String → String → Option MutationSeverity)
    (language : String) (l : List (Status × String)) :
    ∀ cs : SummaryCounters,
      (l.foldl (SummaryCounters.recordOutcome sevOf language) cs).overall.caught =
        cs.overall.caught + l.countP (fun p => p.1 == Status.testFail) := by
  induction l with
  | nil => intro cs; simp
  | cons p rest ih =>
      intro cs
      rw [List.foldl_cons, ih, List.countP_cons]
      rw [recordOutcome_overall, record_caught]
      omega

/-- Projection of a severity bucket. -/
def SummaryCounters.bucket (cs : SummaryCounters) : MutationSeverity → OutcomeCounter
  | .high => cs.high
  | .medium => cs.medium
  | .low => cs.low

theorem recordOutcome_bucket' (sevOf : String → String → Option MutationSeverity)
    (language : String) (cs : SummaryCounters) (p : Status × String)
    (sev : MutationSeverity) :
    (cs.recordOutcome sevOf language p).bucket sev =
    (if (sevOf p.2 language).getD MutationSeverity.low = sev then
      (cs.bucket sev).record p.1
     else cs.bucket sev) := by
  have h := recordOutcome_bucket sevOf language cs p sev
  cases sev <;> simpa [SummaryCounters.bucket] using h

theorem foldl_record_bucket_eligible (sevOf : String → String → Option MutationSeverity)
    (language : String) (sev : MutationSeverity) (l : List (Status × String)) :
    ∀ cs : SummaryCounters,
      ((l.foldl (SummaryCounters.recordOutcome sevOf language) cs).bucket sev).eligible =
        (cs.bucket sev).eligible +
          l.countP (fun p =>
            ((sevOf p.2 language).getD MutationSeverity.low == sev) && isEligibleStatus p.1) := by
  induction l with
  | nil => intro cs; simp
  | cons p rest ih =>
      intro cs
      rw [List.foldl_cons, ih, List.countP_cons]
      rw [recordOutcome_bucket']
      by_cases hs : (sevOf p.2 language).getD MutationSeverity.low = sev
      · rw [if_pos hs, record_eligible]
        simp only [hs]
        simp
        omega
      · rw [if_neg hs]
        have : ((sevOf p.2 language).getD MutationSeverity.low == sev) = false := by
          simpa using hs
        simp [this]

theorem foldl_record_bucket_caught (sevOf : String → String → Option MutationSeverity)
    (language : String) (sev : MutationSeverity) (l : List (Status × String)) :
    ∀ cs : SummaryCounters,
      ((l.foldl (SummaryCounters.recordOutcome sevOf language) cs).bucket sev).caught =
        (cs.bucket sev).caught +
          l.countP (fun p =>
            ((sevOf p.2 language).getD MutationSeverity.low == sev) &&
              p.1 == Status.testFail) := by
  induction l with
  | nil => intro cs; simp
  | cons p rest ih =>
      intro cs
      rw [List.foldl_cons, ih, List.countP_cons]
      rw [recordOutcome_bucket']
      by_cases hs : (sevOf p.2 language).getD MutationSeverity.low = sev
      · rw [if_pos hs, record_caught]
        simp only [hs]
        simp
        omega
      · rw [if_neg hs]
        have : ((sevOf p.2 language).getD MutationSeverity.low == sev) = false := by
          simpa using hs
        simp [this]

theorem isEligibleStatus_eq (s : Status) :
    isEligibleStatus s =
      (s == Status.testFail || s == Status.uncaught || s == Status.timeout) := by
  cases s <;> rfl

/-- C1 amended: the caught percentage's numerator counts TestFail outcomes
and its denominator counts every outcome whose status is TestFail, Uncaught
*or Timeout* — i.e. exactly the statuses other than Skipped and BuildFail —
both overall and within each severity bucket. -/
theorem caught_percentage_counts (sevOf : String → String → Option MutationSeverity)
    (language : String) (outcomes : List (Status × String)) :
    (summarizeOutcomes sevOf language outcomes).overall.eligible =
      outcomes.countP (fun p =>
        p.1 == Status.testFail || p.1 == Status.uncaught || p.1 == Status.timeout) ∧
    (summarizeOutcomes sevOf language outcomes).overall.caught =
      outcomes.countP (fun p => p.1 == Status.testFail) ∧
    (∀ sev : MutationSeverity,
      ((summarizeOutcomes sevOf language outcomes).bucket sev).eligible =
        outcomes.countP (fun p =>
          ((sevOf p.2 language).getD MutationSeverity.low == sev) &&
            (p.1 == Status.testFail || p.1 == Status.uncaught || p.1 == Status.timeout)) ∧
      ((summarizeOutcomes sevOf language outcomes).bucket sev).caught =
        outcomes.countP (fun p =>
          ((sevOf p.2 language).getD MutationSeverity.low == sev) &&
            p.1 == Status.testFail)) := by
  have hpred : (fun (p : Status × String) => isEligibleStatus p.1) =
      (fun (p : Status × String) =>
        p.1 == Status.testFail || p.1 == Status.uncaught || p.1 == Status.timeout) := by
    funext p
    exact isEligibleStatus_eq p.1
  have hnew : ∀ sev : MutationSeverity, (SummaryCounters.new.bucket sev).eligible = 0 ∧
      (SummaryCounters.new.bucket sev).caught = 0 := by
    intro sev
    cases sev <;> exact ⟨rfl, rfl⟩
  refine ⟨?_, ?_, fun sev => ⟨?_, ?_⟩⟩
  · rw [summarizeOutcomes, foldl_record_overall_eligible, hpred]
    simp [SummaryCounters.new, OutcomeCounter.new]
  · rw [summarizeOutcomes, foldl_record_overall_caught]
    simp [SummaryCounters.new, OutcomeCounter.new]
  · rw [summarizeOutcomes, foldl_record_bucket_eligible]
    have hfe : (fun (p : Status × String) =>
        ((sevOf p.2 language).getD MutationSeverity.low == sev) && isEligibleStatus p.1) =
      (fun (p : Status × String) =>
        ((sevOf p.2 language).getD MutationSeverity.low == sev) &&
          (p.1 == Status.testFail || p.1 == Status.uncaught || p.1 == Status.timeout)) := by
      funext p
      rw [isEligibleStatus_eq]
    rw [hfe, (hnew sev).1, Nat.zero_add]
  · rw [summarizeOutcomes, foldl_record_bucket_caught, (hnew sev).2, Nat.zero_add]

end ReporterTheorems

section PatternByteExact

theorem take_length_take (X : List Nat) (k : Nat) :
    X.take (X.take k).length = X.take k := by
  rw [List.length_take]
  rcases Nat.le_total k X.length with h | h
  · rw [Nat.min_eq_left h]
  · rw [Nat.min_eq_right h, List.take_length,
      List.take_of_length_le h]

/-- Any mutant whose `old_text` is the slice of the source at its
`byte_offset` and whose `line_offset` comes from `calculate_line_offset`
is byte-exact with a correct line offset. -/
theorem slice_mutant_ok (source : List Nat) (m : Mutant) (k : Nat)
    (hold : m.old_text = (source.drop m.byte_offset).take k)
    (hline : m.line_offset = calculateLineOffset source m.byte_offset) :
    ByteExact source m ∧ LineOffsetCorrect source m := by
  constructor
  · unfold ByteExact
    rw [hold]
    exact take_length_take _ k
  · exact hline

theorem createMutant_ok (target : Target) (node : CTree) (source : List Nat)
    (slug : String) (newText : List Nat) :
    ByteExact source (createMutant target node source slug newText) ∧
    LineOffsetCorrect source (createMutant target node source slug newText) :=
  slice_mutant_ok source _ (node.endByte - node.startByte) rfl rfl

theorem replaceField_byte_exact (target : Target) (root : CTree) (source : List Nat)
    (nodeKind fieldName slug : String) (newText : List Nat) (m : Mutant)
    (hm : m ∈ replaceFieldForNodesOfKind target root source nodeKind fieldName slug newText) :
    ByteExact source m ∧ LineOffsetCorrect source m := by
  obtain ⟨p, _, hm⟩ := List.mem_flatMap.mp hm
  unfold replaceFieldEmit at hm
  split at hm
  · split at hm
    · rw [List.mem_singleton] at hm
      subst hm
      exact createMutant_ok _ _ _ _ _
    · simp at hm
  · simp at hm

theorem replaceEntire_byte_exact (target : Target) (root : CTree) (source : List Nat)
    (nodeKinds : List String) (slug : String) (replacementText : List Nat)
    (shouldReplace : CTree → List Nat → Bool) (m : Mutant)
    (hm : m ∈ replaceEntireNodesOfKindsFiltered target root source nodeKinds slug
      replacementText shouldReplace) :
    ByteExact source m ∧ LineOffsetCorrect source m := by
  obtain ⟨p, _, hm⟩ := List.mem_flatMap.mp hm
  unfold replaceEntireEmit at hm
  split at hm
  · rw [List.mem_singleton] at hm
    subst hm
    exact createMutant_ok _ _ _ _ _
  · simp at hm

theorem swapArgs_byte_exact (target : Target) (root : CTree) (source : List Nat)
    (nodeKinds : List String) (argsFieldName slug : String) (m : Mutant)
    (hm : m ∈ swapAdjacentArgumentsForKinds target root source nodeKinds argsFieldName slug) :
    ByteExact source m ∧ LineOffsetCorrect source m := by
  obtain ⟨p, _, hm⟩ := List.mem_flatMap.mp hm
  unfold swapArgsEmit at hm
  split at hm
  · split at hm
    · dsimp only at hm
      split at hm
      · obtain ⟨ab, _, hab⟩ := List.mem_map.mp hm
        subst hab
        exact slice_mutant_ok source _ (ab.2.endByte - ab.1.startByte) rfl rfl
      · simp at hm
    · simp at hm
  · simp at hm

theorem flipBoolean_byte_exact (target : Target) (root : CTree) (source : List Nat)
    (booleanNodeKind slug : String) (m : Mutant)
    (hm : m ∈ flipBooleanLiteralsByKind target root source booleanNodeKind slug) :
    ByteExact source m ∧ LineOffsetCorrect source m := by
  obtain ⟨p, _, hm⟩ := List.mem_flatMap.mp hm
  unfold flipBooleanEmit at hm
  split at hm
  · rw [List.mem_singleton] at hm
    subst hm
    exact createMutant_ok _ _ _ _ _
  · simp at hm

theorem shuffleOperators_byte_exact (target : Target) (root : CTree) (source : List Nat)
    (exprNodeKinds : List String) (operators : List (List Nat)) (slug : String) (m : Mutant)
    (hm : m ∈ shuffleOperatorsInExpressions target root source exprNodeKinds operators slug) :
    ByteExact source m ∧ LineOffsetCorrect source m := by
  obtain ⟨p, _, hm⟩ := List.mem_flatMap.mp hm
  unfold shuffleOperatorsEmit at hm
  split at hm
  · obtain ⟨child, _, hm⟩ := List.mem_flatMap.mp hm
    dsimp only at hm
    split at hm
    · obtain ⟨rep, _, hrep⟩ := List.mem_map.mp hm
      subst hrep
      exact slice_mutant_ok source _ (child.endByte - child.startByte) rfl rfl
    · simp at hm
  · simp at hm

theorem wrap_byte_exact (target : Target) (root : CTree) (source : List Nat)
    (nodeKinds : List String) (slug : String) (pre suf : List Nat) (m : Mutant)
    (hm : m ∈ wrapNodesOfKindsWithWrappers target root source nodeKinds slug pre suf) :
    ByteExact source m ∧ LineOffsetCorrect source m := by
  obtain ⟨p, _, hm⟩ := List.mem_flatMap.mp hm
  unfold wrapEmit at hm
  split at hm
  · rw [List.mem_singleton] at hm
    subst hm
    exact createMutant_ok _ _ _ _ _
  · simp at hm

theorem replaceCondition_byte_exact (target : Target) (root : CTree) (source : List Nat)
    (nodeKind conditionFieldName : String) (keywordKinds : List String)
    (slug : String) (replacement : List Nat) (m : Mutant)
    (hm : m ∈ replaceConditionForNodesOfKind target root source nodeKind conditionFieldName
      keywordKinds slug replacement) :
    ByteExact source m ∧ LineOffsetCorrect source m := by
  obtain ⟨p, _, hm⟩ := List.mem_flatMap.mp hm
  unfold replaceConditionEmit at hm
  split at hm
  · split at hm
    · rw [List.mem_singleton] at hm
      subst hm
      exact createMutant_ok _ _ _ _ _
    · split at hm
      · split at hm
        · rw [List.mem_singleton] at hm
          subst hm
          exact createMutant_ok _ _ _ _ _
        · simp at hm
      · simp at hm
  · simp at hm

theorem replaceFirstArg_byte_exact (target : Target) (root : CTree) (source : List Nat)
    (callNodeKinds : List String) (argsFieldName : String) (altArgsKinds : List String)
    (slug : String) (calleeMatches : List Nat → Bool) (replacement : List Nat) (m : Mutant)
    (hm : m ∈ replaceFirstArgumentForCallsMatching target root source callNodeKinds
      argsFieldName altArgsKinds slug calleeMatches replacement) :
    ByteExact source m ∧ LineOffsetCorrect source m := by
  obtain ⟨p, _, hm⟩ := List.mem_flatMap.mp hm
  unfold replaceFirstArgEmit at hm
  split at hm
  · split at hm
    · simp at hm
    · split at hm
      · simp at hm
      · dsimp only at hm
        split at hm
        · split at hm
          · rw [List.mem_singleton] at hm
            subst hm
            exact createMutant_ok _ _ _ _ _
          · simp at hm
        · simp at hm
  · simp at hm

theorem swapLoopControl_byte_exact (target : Target) (root : CTree) (source : List Nat)
    (breakKind continueKind slug : String) (m : Mutant)
    (hm : m ∈ swapLoopControlStatements target root source breakKind continueKind slug) :
    ByteExact source m ∧ LineOffsetCorrect source m := by
  obtain ⟨p, _, hm⟩ := List.mem_flatMap.mp hm
  unfold swapLoopControlEmit at hm
  split at hm
  · simp at hm
  · split at hm
    · rw [List.mem_singleton] at hm
      subst hm
      exact createMutant_ok _ _ _ _ _
    · simp at hm

/-- C6: every mutant emitted by any generation pattern (field replacement,
whole-node replacement, wrapping, condition replacement, repeat-count
replacement, adjacent-argument swap, first-argument replacement, operator
shuffle, boolean flip, loop-control swap) is byte-exact — the source bytes
at `[byte_offset, byte_offset + |old_text|)` equal `old_text` — and its
`line_offset` counts the newline bytes before `byte_offset`. -/
theorem generated_mutants_byte_exact :
    (∀ target root source nodeKind fieldName slug newText m,
      m ∈ replaceFieldForNodesOfKind target root source nodeKind fieldName slug newText →
      ByteExact source m ∧ LineOffsetCorrect source m) ∧
    (∀ target root source nodeKinds slug replacementText shouldReplace m,
      m ∈ replaceEntireNodesOfKindsFiltered target root source nodeKinds slug
        replacementText shouldReplace →
      ByteExact source m ∧ LineOffsetCorrect source m) ∧
    (∀ target root source nodeKinds argsFieldName slug m,
      m ∈ swapAdjacentArgumentsForKinds target root source nodeKinds argsFieldName slug →
      ByteExact source m ∧ LineOffsetCorrect source m) ∧
    (∀ target root source booleanNodeKind slug m,
      m ∈ flipBooleanLiteralsByKind target root source booleanNodeKind slug →
      ByteExact source m ∧ LineOffsetCorrect source m) ∧
    (∀ target root source exprNodeKinds operators slug m,
      m ∈ shuffleOperatorsInExpressions target root source exprNodeKinds operators slug →
      ByteExact source m ∧ LineOffsetCorrect source m) ∧
    (∀ target root source nodeKinds slug pre suf m,
      m ∈ wrapNodesOfKindsWithWrappers target root source nodeKinds slug pre suf →
      ByteExact source m ∧ LineOffsetCorrect source m) ∧
    (∀ target root source nodeKind conditionFieldName keywordKinds slug replacement m,
      m ∈ replaceConditionForNodesOfKind target root source nodeKind conditionFieldName
        keywordKinds slug replacement →
      ByteExact source m ∧ LineOffsetCorrect source m) ∧
    (∀ target root source nodeKind countFieldName keywordKinds slug replacement m,
      m ∈ replaceRepeatCountForNodesOfKind target root source nodeKind countFieldName
        keywordKinds slug replacement →
      ByteExact source m ∧ LineOffsetCorrect source m) ∧
    (∀ target root source callNodeKinds argsFieldName altArgsKinds slug calleeMatches
        replacement m,
      m ∈ replaceFirstArgumentForCallsMatching target root source callNodeKinds argsFieldName
        altArgsKinds slug calleeMatches replacement →
      ByteExact source m ∧ LineOffsetCorrect source m) ∧
    (∀ target root source breakKind continueKind slug m,
      m ∈ swapLoopControlStatements target root source breakKind continueKind slug →
      ByteExact source m ∧ LineOffsetCorrect source m) := by
  refine ⟨?_, ?_, ?_, ?_, ?_, ?_, ?_, ?_, ?_, ?_⟩
  · exact fun t r s a b c d m hm => replaceField_byte_exact t r s a b c d m hm
  · exact fun t r s a b c d m hm => replaceEntire_byte_exact t r s a b c d m hm
  · exact fun t r s a b c m hm => swapArgs_byte_exact t r s a b c m hm
  · exact fun t r s a b m hm => flipBoolean_byte_exact t r s a b m hm
  · exact fun t r s a b c m hm => shuffleOperators_byte_exact t r s a b c m hm
  · exact fun t r s a b c d m hm => wrap_byte_exact t r s a b c d m hm
  · exact fun t r s a b c d e m hm => replaceCondition_byte_exact t r s a b c d e m hm
  · exact fun t r s a b c d e m hm => replaceCondition_byte_exact t r s a b c d e m hm
  · exact fun t r s a b c d e f m hm => replaceFirstArg_byte_exact t r s a b c d e f m hm
  · exact fun t r s a b c m hm => swapLoopControl_byte_exact t r s a b c m hm

/-- A one-node tree holding the boolean literal `true`. -/
def wTree : CTree := .node ⟨"boolean_literal", 0, 4, true, false, false⟩ []

def wTarget : Target := ⟨1, "p", strBytes "true", "Tact"⟩

def wMutant : Mutant := ⟨0, 1, 0, 0, strBytes "true", strBytes "false", "BL"⟩

/-- Witness for C6: the BL mutant generated for the literal `true`. -/
theorem generated_mutants_byte_exact_witness :
    ByteExact (strBytes "true") wMutant ∧ LineOffsetCorrect (strBytes "true") wMutant :=
  generated_mutants_byte_exact.2.2.2.1 wTarget wTree (strBytes "true") "boolean_literal"
    "BL" wMutant (by decide)

end PatternByteExact

section PatternCommentExclusion

theorem replaceEntire_provenance (target : Target) (root : CTree) (source : List Nat)
    (nodeKinds : List String) (slug : String) (replacementText : List Nat)
    (shouldReplace : CTree → List Nat → Bool) (m : Mutant)
    (hm : m ∈ replaceEntireNodesOfKindsFiltered target root source nodeKinds slug
      replacementText shouldReplace) :
    ∃ p ∈ preorderT [] root, isInComment p.2 p.1 = false ∧
      m ∈ replaceEntireEmit target source nodeKinds slug replacementText shouldReplace p ∧
      m.byte_offset = p.2.startByte ∧ m.old_text = nodeText source p.2 := by
  obtain ⟨p, hp, hm⟩ := List.mem_flatMap.mp hm
  have hmm := hm
  unfold replaceEntireEmit at hmm
  split at hmm
  · rename_i hcond
    simp only [Bool.and_eq_true, Bool.not_eq_true'] at hcond
    rw [List.mem_singleton] at hmm
    subst hmm
    exact ⟨p, hp, hcond.1.1.2, hm, rfl, rfl⟩
  · simp at hmm

theorem wrap_provenance (target : Target) (root : CTree) (source : List Nat)
    (nodeKinds : List String) (slug : String) (pre suf : List Nat) (m : Mutant)
    (hm : m ∈ wrapNodesOfKindsWithWrappers target root source nodeKinds slug pre suf) :
    ∃ p ∈ preorderT [] root, isInComment p.2 p.1 = false ∧
      m ∈ wrapEmit target source nodeKinds slug pre suf p ∧
      m.byte_offset = p.2.startByte ∧ m.old_text = nodeText source p.2 := by
  obtain ⟨p, hp, hm⟩ := List.mem_flatMap.mp hm
  have hmm := hm
  unfold wrapEmit at hmm
  split at hmm
  · rename_i hcond
    simp only [Bool.and_eq_true, Bool.not_eq_true'] at hcond
    rw [List.mem_singleton] at hmm
    subst hmm
    exact ⟨p, hp, hcond.1.2, hm, rfl, rfl⟩
  · simp at hmm

theorem flipBoolean_provenance (target : Target) (root : CTree) (source : List Nat)
    (booleanNodeKind slug : String) (m : Mutant)
    (hm : m ∈ flipBooleanLiteralsByKind target root source booleanNodeKind slug) :
    ∃ p ∈ preorderT [] root, isInComment p.2 p.1 = false ∧
      m ∈ flipBooleanEmit target source booleanNodeKind slug p ∧
      m.byte_offset = p.2.startByte ∧ m.old_text = nodeText source p.2 := by
  obtain ⟨p, hp, hm⟩ := List.mem_flatMap.mp hm
  have hmm := hm
  unfold flipBooleanEmit at hmm
  split at hmm
  · rename_i hcond
    simp only [Bool.and_eq_true, Bool.not_eq_true'] at hcond
    rw [List.mem_singleton] at hmm
    subst hmm
    exact ⟨p, hp, hcond.2, hm, rfl, rfl⟩
  · simp at hmm

theorem swapLoopControl_provenance (target : Target) (root : CTree) (source : List Nat)
    (breakKind continueKind slug : String) (m : Mutant)
    (hm : m ∈ swapLoopControlStatements target root source breakKind continueKind slug) :
    ∃ p ∈ preorderT [] root, isInComment p.2 p.1 = false ∧
      m ∈ swapLoopControlEmit target source breakKind continueKind slug p ∧
      m.byte_offset = p.2.startByte ∧ m.old_text = nodeText source p.2 := by
  obtain ⟨p, hp, hm⟩ := List.mem_flatMap.mp hm
  have hmm := hm
  unfold swapLoopControlEmit at hmm
  split at hmm
  · simp at hmm
  · rename_i hcond
    have hncom : isInComment p.2 p.1 = false := Bool.eq_false_iff.mpr hcond
    split at hmm
    · rw [List.mem_singleton] at hmm
      subst hmm
      exact ⟨p, hp, hncom, hm, rfl, rfl⟩
    · simp at hmm

theorem swapArgs_provenance (target : Target) (root : CTree) (source : List Nat)
    (nodeKinds : List String) (argsFieldName slug : String) (m : Mutant)
    (hm : m ∈ swapAdjacentArgumentsForKinds target root source nodeKinds argsFieldName slug) :
    ∃ p ∈ preorderT [] root, isInComment p.2 p.1 = false ∧
      m ∈ swapArgsEmit target source nodeKinds argsFieldName slug p := by
  obtain ⟨p, hp, hm⟩ := List.mem_flatMap.mp hm
  have hmm := hm
  unfold swapArgsEmit at hmm
  split at hmm
  · rename_i hcond
    simp only [Bool.and_eq_true, Bool.not_eq_true'] at hcond
    exact ⟨p, hp, hcond.2, hm⟩
  · simp at hmm

theorem shuffleOperators_provenance (target : Target) (root : CTree) (source : List Nat)
    (exprNodeKinds : List String) (operators : List (List Nat)) (slug : String) (m : Mutant)
    (hm : m ∈ shuffleOperatorsInExpressions target root source exprNodeKinds operators slug) :
    ∃ p ∈ preorderT [] root, isInComment p.2 p.1 = false ∧
      m ∈ shuffleOperatorsEmit target source exprNodeKinds operators slug p := by
  obtain ⟨p, hp, hm⟩ := List.mem_flatMap.mp hm
  have hmm := hm
  unfold shuffleOperatorsEmit at hmm
  split at hmm
  · rename_i hcond
    simp only [Bool.and_eq_true, Bool.not_eq_true'] at hcond
    exact ⟨p, hp, hcond.2, hm⟩
  · simp at hmm

theorem replaceCondition_provenance (target : Target) (root : CTree) (source : List Nat)
    (nodeKind conditionFieldName : String) (keywordKinds : List String)
    (slug : String) (replacement : List Nat) (m : Mutant)
    (hm : m ∈ replaceConditionForNodesOfKind target root source nodeKind conditionFieldName
      keywordKinds slug replacement) :
    ∃ p ∈ preorderT [] root, isInComment p.2 p.1 = false ∧
      m ∈ replaceConditionEmit target source nodeKind conditionFieldName keywordKinds slug
        replacement p := by
  obtain ⟨p, hp, hm⟩ := List.mem_flatMap.mp hm
  have hmm := hm
  unfold replaceConditionEmit at hmm
  split at hmm
  · rename_i hcond
    simp only [Bool.and_eq_true, Bool.not_eq_true'] at hcond
    exact ⟨p, hp, hcond.2, hm⟩
  · simp at hmm

theorem replaceField_provenance (target : Target) (root : CTree) (source : List Nat)
    (nodeKind fieldName slug : String) (newText : List Nat) (m : Mutant)
    (hm : m ∈ replaceFieldForNodesOfKind target root source nodeKind fieldName slug newText) :
    ∃ p ∈ preorderT [] root, isInComment p.2 p.1 = false ∧
      m ∈ replaceFieldEmit target source nodeKind fieldName slug newText p := by
  obtain ⟨p, hp, hm⟩ := List.mem_flatMap.mp hm
  have hmm := hm
  unfold replaceFieldEmit at hmm
  split at hmm
  · rename_i hcond
    simp only [Bool.and_eq_true, Bool.not_eq_true'] at hcond
    exact ⟨p, hp, hcond.2, hm⟩
  · simp at hmm

theorem replaceFirstArg_provenance (target : Target) (root : CTree) (source : List Nat)
    (callNodeKinds : List String) (argsFieldName : String) (altArgsKinds : List String)
    (slug : String) (calleeMatches : List Nat → Bool) (replacement : List Nat) (m : Mutant)
    (hm : m ∈ replaceFirstArgumentForCallsMatching target root source callNodeKinds
      argsFieldName altArgsKinds slug calleeMatches replacement) :
    ∃ p ∈ preorderT [] root, isInComment p.2 p.1 = false ∧
      m ∈ replaceFirstArgEmit target source callNodeKinds argsFieldName altArgsKinds slug
        calleeMatches replacement p := by
  obtain ⟨p, hp, hm⟩ := List.mem_flatMap.mp hm
  have hmm := hm
  unfold replaceFirstArgEmit at hmm
  split at hmm
  · rename_i hcond
    simp only [Bool.and_eq_true, Bool.not_eq_true'] at hcond
    exact ⟨p, hp, hcond.2, hm⟩
  · simp at hmm

/-- C7 amended: every pattern checks `is_in_comment` on the node it
matches, so the matched node is never in a comment; for the patterns that
replace the matched node itself (whole-node replacement, wrapping, boolean
flip, loop-control swap) the mutated text is that very node's text, hence
those mutants never target a node in a comment. The remaining patterns
(condition replacement, field replacement, adjacent-argument swap,
first-argument replacement, operator shuffle) emit edits at descendant
nodes that are not re-checked, so only the matched ancestor is guaranteed
to be outside comments. -/
theorem patterns_comment_exclusion :
    (∀ target root source nodeKinds slug replacementText shouldReplace m,
      m ∈ replaceEntireNodesOfKindsFiltered target root source nodeKinds slug
        replacementText shouldReplace →
      ∃ p ∈ preorderT [] root, isInComment p.2 p.1 = false ∧
        m ∈ replaceEntireEmit target source nodeKinds slug replacementText shouldReplace p ∧
        m.byte_offset = p.2.startByte ∧ m.old_text = nodeText source p.2) ∧
    (∀ target root source nodeKinds slug pre suf m,
      m ∈ wrapNodesOfKindsWithWrappers target root source nodeKinds slug pre suf →
      ∃ p ∈ preorderT [] root, isInComment p.2 p.1 = false ∧
        m ∈ wrapEmit target source nodeKinds slug pre suf p ∧
        m.byte_offset = p.2.startByte ∧ m.old_text = nodeText source p.2) ∧
    (∀ target root source booleanNodeKind slug m,
      m ∈ flipBooleanLiteralsByKind target root source booleanNodeKind slug →
      ∃ p ∈ preorderT [] root, isInComment p.2 p.1 = false ∧
        m ∈ flipBooleanEmit target source booleanNodeKind slug p ∧
        m.byte_offset = p.2.startByte ∧ m.old_text = nodeText source p.2) ∧
    (∀ target root source breakKind continueKind slug m,
      m ∈ swapLoopControlStatements target root source breakKind continueKind slug →
      ∃ p ∈ preorderT [] root, isInComment p.2 p.1 = false ∧
        m ∈ swapLoopControlEmit target source breakKind continueKind slug p ∧
        m.byte_offset = p.2.startByte ∧ m.old_text = nodeText source p.2) ∧
    (∀ target root source nodeKinds argsFieldName slug m,
      m ∈ swapAdjacentArgumentsForKinds target root source nodeKinds argsFieldName slug →
      ∃ p ∈ preorderT [] root, isInComment p.2 p.1 = false ∧
        m ∈ swapArgsEmit target source nodeKinds argsFieldName slug p) ∧
    (∀ target root source exprNodeKinds operators slug m,
      m ∈ shuffleOperatorsInExpressions target root source exprNodeKinds operators slug →
      ∃ p ∈ preorderT [] root, isInComment p.2 p.1 = false ∧
        m ∈ shuffleOperatorsEmit target source exprNodeKinds operators slug p) ∧
    (∀ target root source nodeKind conditionFieldName keywordKinds slug replacement m,
      m ∈ replaceConditionForNodesOfKind target root source nodeKind conditionFieldName
        keywordKinds slug replacement →
      ∃ p ∈ preorderT [] root, isInComment p.2 p.1 = false ∧
        m ∈ replaceConditionEmit target source nodeKind conditionFieldName keywordKinds slug
          replacement p) ∧
    (∀ target root source callNodeKinds argsFieldName altArgsKinds slug calleeMatches
        replacement m,
      m ∈ replaceFirstArgumentForCallsMatching target root source callNodeKinds argsFieldName
        altArgsKinds slug calleeMatches replacement →
      ∃ p ∈ preorderT [] root, isInComment p.2 p.1 = false ∧
        m ∈ replaceFirstArgEmit target source callNodeKinds argsFieldName altArgsKinds slug
          calleeMatches replacement p) ∧
    (∀ target root source nodeKind fieldName slug newText m,
      m ∈ replaceFieldForNodesOfKind target root source nodeKind fieldName slug newText →
      ∃ p ∈ preorderT [] root, isInComment p.2 p.1 = false ∧
        m ∈ replaceFieldEmit target source nodeKind fieldName slug newText p) :=
  ⟨replaceEntire_provenance, wrap_provenance, flipBoolean_provenance,
   swapLoopControl_provenance, swapArgs_provenance, shuffleOperators_provenance,
   replaceCondition_provenance, replaceFirstArg_provenance, replaceField_provenance⟩

/-- Witness for C7's amended statement, at the BL mutant of `wTree`. -/
theorem patterns_comment_exclusion_witness :
    ∃ p ∈ preorderT [] wTree, isInComment p.2 p.1 = false ∧
      wMutant ∈ flipBooleanEmit wTarget (strBytes "true") "boolean_literal" "BL" p ∧
      wMutant.byte_offset = p.2.startByte ∧
      wMutant.old_text = nodeText (strBytes "true") p.2 :=
  patterns_comment_exclusion.2.2.1 wTarget wTree (strBytes "true") "boolean_literal" "BL"
    wMutant (by decide)

/-- Whether `off` lies inside the byte span of some comment node of the
tree. -/
def inCommentSpanAt (root : CTree) (off : Nat) : Bool :=
  (preorderT [] root).any (fun p =>
    p.2.kind == "comment" && decide (p.2.startByte ≤ off) && decide (off < p.2.endByte))

/-- Source `f(;;c\n0)`: a call whose argument list contains a line comment
before the argument, as the grammars' comment "extra" nodes allow. -/
def cSource : List Nat := strBytes "f(;;c\n0)"

def cCommentNode : CTree := .node ⟨"comment", 2, 5, true, false, false⟩ []

def cArgsNode : CTree :=
  .node ⟨"arguments", 1, 8, true, false, false⟩
    [(none, .node ⟨"(", 1, 2, false, false, false⟩ []),
     (none, cCommentNode),
     (none, .node ⟨"number", 6, 7, true, false, false⟩ []),
     (none, .node ⟨")", 7, 8, false, false, false⟩ [])]

def cRoot : CTree :=
  .node ⟨"function_application", 0, 8, true, false, false⟩
    [(none, .node ⟨"identifier", 0, 1, true, false, false⟩ []),
     (some "arguments", cArgsNode)]

def cTarget : Target := ⟨1, "p", cSource, "FunC"⟩

/-- Counterexample for C7: on `f(;;c\n0)` the first-argument replacement
pattern emits a mutant whose mutated node is the comment `;;c` itself —
its byte offset lies inside a comment span, its old text is the comment
text, and the emitted node satisfies the code's own `is_in_comment`
predicate. -/
theorem comment_exclusion_counterexample :
    replaceFirstArgumentForCallsMatching cTarget cRoot cSource ["function_application"]
        "arguments" [] "SU" (fun t => t == strBytes "f") (strBytes "0") =
      [⟨0, 1, 2, 0, strBytes ";;c", strBytes "0", "SU"⟩] ∧
    inCommentSpanAt cRoot 2 = true ∧
    isInComment cCommentNode [cArgsNode.info, cRoot.info] = true := by
  decide

end PatternCommentExclusion

section RunnerTheorems

/-- C8: when the cancellation flag is observed unset during a mutated test
run, the scheduler kills and reaps the child, restores the source file to
the target's original text, and records no outcome — the store's outcome
rows are unchanged — and no error is propagated. -/
theorem cancellation_kills_restores_no_outcome (sevOf : SeverityLookup) (t : Target)
    (m : Mutant) (o : StepOracle) (st : RState)
    (hcancel : o.exit = RunExit.cancelled)
    (hmut : ∃ mt, t.mutate m = .ok mt) :
    (testMutant sevOf t m o st).2 = none ∧
    (testMutant sevOf t m o st).1.fileContents = t.text ∧
    (testMutant sevOf t m o st).1.outcomes = st.outcomes ∧
    (testMutant sevOf t m o st).1.lastChildKilled = true ∧
    (testMutant sevOf t m o st).1.hasActiveMutation = false := by
  obtain ⟨mt, hmt⟩ := hmut
  unfold testMutant
  rw [hmt, hcancel]
  exact ⟨rfl, rfl, rfl, rfl, rfl⟩

/-- Witness for C8: a concrete cancelled run. -/
theorem cancellation_kills_restores_no_outcome_witness :
    (testMutant (fun _ _ => some .high) ⟨1, "p", strBytes "abc", "FunC"⟩
      ⟨5, 1, 1, 0, strBytes "b", strBytes "x", "ER"⟩ ⟨true, .cancelled, 3, 4⟩
      ⟨strBytes "abc", false, none, [], [], [], false⟩).1.fileContents = strBytes "abc" ∧
    (testMutant (fun _ _ => some .high) ⟨1, "p", strBytes "abc", "FunC"⟩
      ⟨5, 1, 1, 0, strBytes "b", strBytes "x", "ER"⟩ ⟨true, .cancelled, 3, 4⟩
      ⟨strBytes "abc", false, none, [], [], [], false⟩).1.outcomes = [] := by
  have h := cancellation_kills_restores_no_outcome (fun _ _ => some .high)
    ⟨1, "p", strBytes "abc", "FunC"⟩ ⟨5, 1, 1, 0, strBytes "b", strBytes "x", "ER"⟩
    ⟨true, .cancelled, 3, 4⟩ ⟨strBytes "abc", false, none, [], [], [], false⟩
    rfl ⟨strBytes "axc", rfl⟩
  exact ⟨h.2.1, h.2.2.1⟩

theorem testMutant_eq_mutate_error (sevOf : SeverityLookup) (t : Target) (m : Mutant)
    (o : StepOracle) (st : RState) (e : MutateError) (hmt : t.mutate m = .error e) :
    testMutant sevOf t m o st = (st, some (.mutateFailed e)) := by
  unfold testMutant
  rw [hmt]

theorem testMutant_eq_exited_true (sevOf : SeverityLookup) (t : Target) (m : Mutant)
    (o : StepOracle) (st : RState) (mt : List Nat) (output : String)
    (hmt : t.mutate m = .ok mt) (hex : o.exit = .exited true output) :
    testMutant sevOf t m o st =
      match sevOf m.mutation_slug t.language with
      | none =>
          ({ st with
              fileContents := mt
              hasActiveMutation := true
              lastChildKilled := false }, some (.slugNotFound m.mutation_slug))
      | some sev =>
          ({ st with
              fileContents := t.text
              hasActiveMutation := false
              lastChildKilled := false
              uncaughtHighSevLines :=
                if sev.toNumeric = 0 then insertLines st.uncaughtHighSevLines m.lineList
                else st.uncaughtHighSevLines
              uncaughtMedSevLines :=
                if sev.toNumeric = 1 then insertLines st.uncaughtMedSevLines m.lineList
                else st.uncaughtMedSevLines
              outcomes := addOutcome st.outcomes
                ⟨m.id, .uncaught, output, o.now, o.durationMs⟩ }, none) := by
  unfold testMutant
  rw [hmt, hex]
  dsimp only [runAndWait]
  rw [if_pos rfl]
  cases hsev : sevOf m.mutation_slug t.language with
  | none => rfl
  | some sev =>
      by_cases h0 : sev.toNumeric = 0
      · simp [h0]
      · by_cases h1 : sev.toNumeric = 1
        · simp [h0, h1]
        · simp [h0, h1]

theorem testMutant_eq_exited_false (sevOf : SeverityLookup) (t : Target) (m : Mutant)
    (o : StepOracle) (st : RState) (mt : List Nat) (output : String)
    (hmt : t.mutate m = .ok mt) (hex : o.exit = .exited false output) :
    testMutant sevOf t m o st =
      ({ st with
          fileContents := t.text
          hasActiveMutation := false
          lastChildKilled := false
          outcomes := addOutcome st.outcomes
            ⟨m.id, .testFail, output, o.now, o.durationMs⟩ }, none) := by
  unfold testMutant
  rw [hmt, hex]
  dsimp only [runAndWait]
  rw [if_neg (by decide)]

theorem testMutant_eq_timedOut (sevOf : SeverityLookup) (t : Target) (m : Mutant)
    (o : StepOracle) (st : RState) (mt : List Nat) (output : String)
    (hmt : t.mutate m = .ok mt) (hex : o.exit = .timedOut output) :
    testMutant sevOf t m o st =
      ({ st with
          fileContents := t.text
          hasActiveMutation := false
          lastChildKilled := true
          outcomes := addOutcome st.outcomes
            ⟨m.id, .timeout, output, o.now, o.durationMs⟩ }, none) := by
  unfold testMutant
  rw [hmt, hex]
  dsimp only [runAndWait]
  rw [if_neg (by decide)]

theorem testMutant_eq_cancelled (sevOf : SeverityLookup) (t : Target) (m : Mutant)
    (o : StepOracle) (st : RState) (mt : List Nat)
    (hmt : t.mutate m = .ok mt) (hex : o.exit = .cancelled) :
    testMutant sevOf t m o st =
      ({ st with
          fileContents := t.text
          hasActiveMutation := false
          lastChildKilled := true }, none) := by
  unfold testMutant
  rw [hmt, hex]
  rfl

theorem testMutant_eq_spawnFailed (sevOf : SeverityLookup) (t : Target) (m : Mutant)
    (o : StepOracle) (st : RState) (mt : List Nat)
    (hmt : t.mutate m = .ok mt) (hex : o.exit = .spawnFailed) :
    testMutant sevOf t m o st =
      ({ st with
          fileContents := mt
          hasActiveMutation := true
          lastChildKilled := false }, some .runFailed) := by
  unfold testMutant
  rw [hmt, hex]
  rfl

/-- The current target is still held, and if no mutation is active the
file holds the original text (the state an error may leave behind). -/
def TargetHeld (t : Target) (st : RState) : Prop :=
  st.currentTarget = some t ∧
    (st.hasActiveMutation = false → st.fileContents = t.text)

/-- State at mutant-loop boundaries: the current target is held, no
mutation is active, and the file holds the original text. -/
def CleanState (t : Target) (st : RState) : Prop :=
  st.currentTarget = some t ∧ st.hasActiveMutation = false ∧
    st.fileContents = t.text

theorem testMutant_frame (sevOf : SeverityLookup) (t : Target) (m : Mutant)
    (o : StepOracle) (st : RState) (h : CleanState t st) :
    ((testMutant sevOf t m o st).2 = none → CleanState t (testMutant sevOf t m o st).1) ∧
    TargetHeld t (testMutant sevOf t m o st).1 := by
  obtain ⟨hct, hact, hfile⟩ := h
  cases hmt : t.mutate m with
  | error e =>
      rw [testMutant_eq_mutate_error sevOf t m o st e hmt]
      exact ⟨fun _ => ⟨hct, hact, hfile⟩, hct, fun _ => hfile⟩
  | ok mt =>
      cases hex : o.exit with
      | exited success output =>
          cases success with
          | true =>
              rw [testMutant_eq_exited_true sevOf t m o st mt output hmt hex]
              cases hsev : sevOf m.mutation_slug t.language with
              | none => exact ⟨fun hc => by simp at hc, hct, fun hc => by simp at hc⟩
              | some sev => exact ⟨fun _ => ⟨hct, rfl, rfl⟩, hct, fun _ => rfl⟩
          | false =>
              rw [testMutant_eq_exited_false sevOf t m o st mt output hmt hex]
              exact ⟨fun _ => ⟨hct, rfl, rfl⟩, hct, fun _ => rfl⟩
      | timedOut output =>
          rw [testMutant_eq_timedOut sevOf t m o st mt output hmt hex]
          exact ⟨fun _ => ⟨hct, rfl, rfl⟩, hct, fun _ => rfl⟩
      | cancelled =>
          rw [testMutant_eq_cancelled sevOf t m o st mt hmt hex]
          exact ⟨fun _ => ⟨hct, rfl, rfl⟩, hct, fun _ => rfl⟩
      | spawnFailed =>
          rw [testMutant_eq_spawnFailed sevOf t m o st mt hmt hex]
          exact ⟨fun hc => by simp at hc, hct, fun hc => by simp at hc⟩

theorem processStep_frame (sevOf : SeverityLookup) (comprehensive : Bool)
    (allowedSlugs : Option (List String)) (t : Target) (m : Mutant) (o : StepOracle)
    (st : RState) (h : CleanState t st) :
    ((processStep sevOf comprehensive allowedSlugs t m o st).2 = none →
      CleanState t (processStep sevOf comprehensive allowedSlugs t m o st).1) ∧
    TargetHeld t (processStep sevOf comprehensive allowedSlugs t m o st).1 := by
  have hh := h
  obtain ⟨hct, hact, hfile⟩ := hh
  unfold processStep
  dsimp only
  split
  · exact ⟨fun _ => h, hct, fun _ => hfile⟩
  · split
    · exact ⟨fun hc => by simp at hc, hct, fun _ => hfile⟩
    · exact ⟨fun _ => ⟨hct, hact, hfile⟩, hct, fun _ => hfile⟩
    · split
      · exact ⟨fun _ => h, hct, fun _ => hfile⟩
      · exact testMutant_frame sevOf t m o st h

theorem runLoop_frame (sevOf : SeverityLookup) (comprehensive : Bool)
    (allowedSlugs : Option (List String)) (t : Target)
    (steps : List (Mutant × StepOracle)) :
    ∀ st : RState, CleanState t st →
      ((runLoop sevOf comprehensive allowedSlugs t st steps).2 = none →
        CleanState t (runLoop sevOf comprehensive allowedSlugs t st steps).1) ∧
      TargetHeld t (runLoop sevOf comprehensive allowedSlugs t st steps).1 := by
  induction steps with
  | nil =>
      intro st h
      exact ⟨fun _ => h, h.1, fun _ => h.2.2⟩
  | cons s rest ih =>
      intro st h
      rcases s with ⟨m, o⟩
      unfold runLoop
      split
      · cases hps : processStep sevOf comprehensive allowedSlugs t m o st with
        | mk st' res =>
            cases res with
            | none =>
                have hframe := processStep_frame sevOf comprehensive allowedSlugs t m o st h
                rw [hps] at hframe
                exact ih st' (hframe.1 rfl)
            | some e =>
                have hframe := processStep_frame sevOf comprehensive allowedSlugs t m o st h
                rw [hps] at hframe
                exact ⟨fun hc => by simp at hc, hframe.2⟩
      · exact ⟨fun _ => h, h.1, fun _ => h.2.2⟩

/-- C2: a run of the scheduler over a target restores the file at the
target's path on every exit path of the per-mutant loop — normal
completion, error propagation after the mutation was applied, timeout,
cancellation — and under a subsequent drop of the runner: starting from a
state whose file holds the original text and with no mutation active, the
state after `run_mutation_campaign` (with its unconditional cleanup)
followed by `Drop` has `fileContents = target.text`, for every oracle. -/
theorem scheduler_restores_file (sevOf : SeverityLookup) (comprehensive : Bool)
    (allowedSlugs : Option (List String)) (t : Target)
    (steps : List (Mutant × StepOracle)) (st : RState)
    (hfile : st.fileContents = t.text) (hactive : st.hasActiveMutation = false) :
    (dropRunner (runMutationCampaign sevOf comprehensive allowedSlugs t steps st).1).fileContents
      = t.text ∧
    (dropRunner (runMutationCampaign sevOf comprehensive allowedSlugs t steps st).1).hasActiveMutation
      = false := by
  unfold runMutationCampaign runMutationsForTarget
  dsimp only
  set st0 : RState := { st with
    currentTarget := some t
    uncaughtHighSevLines := []
    uncaughtMedSevLines := [] } with hst0
  have hclean : CleanState t st0 := ⟨rfl, hactive, hfile⟩
  set sorted := steps.mergeSort (fun a b =>
    sevKey sevOf t.language a.1 ≤ sevKey sevOf t.language b.1) with hsorted
  have hframe := runLoop_frame sevOf comprehensive allowedSlugs t sorted st0 hclean
  cases hrl : runLoop sevOf comprehensive allowedSlugs t st0 sorted with
  | mk st' res =>
      rw [hrl] at hframe
      cases res with
      | none =>
          obtain ⟨_, hact', hfile'⟩ := hframe.1 rfl
          have hact2 : st'.hasActiveMutation = false := hact'
          have hfile2 : st'.fileContents = t.text := hfile'
          dsimp only
          rw [if_neg (by simp [hact2])]
          unfold dropRunner
          rw [if_neg (by simp [hact2])]
          exact ⟨hfile2, hact2⟩
      | some e =>
          obtain ⟨hct', himp⟩ := hframe.2
          dsimp only
          by_cases ha : st'.hasActiveMutation
          · rw [if_pos ha]
            unfold cleanup
            rw [if_pos ha, hct']
            unfold dropRunner
            simp
          · rw [if_neg ha]
            unfold dropRunner
            rw [if_neg ha]
            have := himp (by simpa using ha)
            exact ⟨this, by simpa using ha⟩

/-- Witness for C2: a one-mutant run whose test run fails to spawn — the
error path leaves the mutation on disk inside the loop, and the campaign's
cleanup restores it. -/
theorem scheduler_restores_file_witness :
    (dropRunner (runMutationCampaign (fun _ _ => some .high) false none
      ⟨1, "p", strBytes "abc", "FunC"⟩
      [(⟨5, 1, 1, 0, strBytes "b", strBytes "x", "ER"⟩, ⟨true, .spawnFailed, 3, 4⟩)]
      ⟨strBytes "abc", false, none, [], [], [], false⟩).1).fileContents = strBytes "abc" :=
  (scheduler_restores_file (fun _ _ => some .high) false none
    ⟨1, "p", strBytes "abc", "FunC"⟩
    [(⟨5, 1, 1, 0, strBytes "b", strBytes "x", "ER"⟩, ⟨true, .spawnFailed, 3, 4⟩)]
    ⟨strBytes "abc", false, none, [], [], [], false⟩ rfl rfl).1

theorem lookup_addOutcome_fresh (rows : List Outcome) (oc : Outcome)
    (h : lookupOutcome rows oc.mutant_id = none) :
    lookupOutcome (addOutcome rows oc) oc.mutant_id = some oc := by
  unfold addOutcome
  rw [h]
  unfold lookupOutcome at h ⊢
  rw [List.find?_append, h]
  simp

theorem mem_insertLine (s : List Nat) (x : Nat) : x ∈ insertLine s x := by
  unfold insertLine
  split
  · assumption
  · exact List.mem_cons_self x s

theorem subset_insertLine (s : List Nat) (x : Nat) : s ⊆ insertLine s x := by
  unfold insertLine
  split
  · exact fun a h => h
  · exact fun a h => List.mem_cons_of_mem _ h

theorem subset_insertLines (xs : List Nat) : ∀ s : List Nat, s ⊆ insertLines s xs := by
  induction xs with
  | nil => intro s; exact fun a h => h
  | cons x rest ih =>
      intro s
      exact fun a h => ih (insertLine s x) (subset_insertLine s x h)

theorem mem_insertLines (xs : List Nat) :
    ∀ (s : List Nat) (x : Nat), x ∈ xs → x ∈ insertLines s xs := by
  induction xs with
  | nil => intro s x h; simp at h
  | cons y rest ih =>
      intro s x h
      rcases List.mem_cons.mp h with rfl | h'
      · exact subset_insertLines rest (insertLine s x) (mem_insertLine s x)
      · exact ih (insertLine s y) x h'

theorem processStep_eq_skip (sevOf : SeverityLookup) (t : Target) (m : Mutant)
    (o : StepOracle) (st : RState) (sev : MutationSeverity)
    (hfresh : lookupOutcome st.outcomes m.id = none)
    (hsev : sevOf m.mutation_slug t.language = some sev)
    (hskip : shouldSkipMutant st sev.toNumeric m = true) :
    processStep sevOf false none t m o st =
      ({ st with outcomes := addOutcome st.outcomes (skippedOutcome m.id o.now) }, none) := by
  unfold processStep
  rw [hfresh]
  simp [hsev, hskip]

theorem processStep_eq_test (sevOf : SeverityLookup) (t : Target) (m : Mutant)
    (o : StepOracle) (st : RState) (sev : MutationSeverity)
    (hfresh : lookupOutcome st.outcomes m.id = none)
    (hsev : sevOf m.mutation_slug t.language = some sev)
    (hskip : shouldSkipMutant st sev.toNumeric m = false) :
    processStep sevOf false none t m o st = testMutant sevOf t m o st := by
  unfold processStep
  rw [hfresh]
  simp [hsev, hskip]

/-- Under a fresh mutant id, any outcome the tested mutant ends up with
comes from the test run, whose statuses are Uncaught, TestFail or
Timeout — never Skipped. -/
theorem testMutant_never_skipped (sevOf : SeverityLookup) (t : Target) (m : Mutant)
    (o : StepOracle) (st : RState)
    (hfresh : lookupOutcome st.outcomes m.id = none) (oc : Outcome)
    (hoc : lookupOutcome (testMutant sevOf t m o st).1.outcomes m.id = some oc) :
    oc.status ≠ Status.skipped := by
  cases hmt : t.mutate m with
  | error e =>
      rw [testMutant_eq_mutate_error sevOf t m o st e hmt] at hoc
      rw [hfresh] at hoc
      exact absurd hoc (by simp)
  | ok mt =>
      cases hex : o.exit with
      | exited success output =>
          cases success with
          | true =>
              rw [testMutant_eq_exited_true sevOf t m o st mt output hmt hex] at hoc
              cases hsev : sevOf m.mutation_slug t.language with
              | none =>
                  rw [hsev] at hoc
                  dsimp only at hoc
                  rw [hfresh] at hoc
                  exact absurd hoc (by simp)
              | some sev =>
                  rw [hsev] at hoc
                  dsimp only at hoc
                  have hlk := lookup_addOutcome_fresh st.outcomes
                    ⟨m.id, Status.uncaught, output, o.now, o.durationMs⟩ hfresh
                  have heq : some oc =
                      some (⟨m.id, Status.uncaught, output, o.now, o.durationMs⟩ : Outcome) :=
                    hoc.symm.trans hlk
                  cases heq
                  simp
          | false =>
              rw [testMutant_eq_exited_false sevOf t m o st mt output hmt hex] at hoc
              dsimp only at hoc
              have hlk := lookup_addOutcome_fresh st.outcomes
                ⟨m.id, Status.testFail, output, o.now, o.durationMs⟩ hfresh
              have heq : some oc =
                  some (⟨m.id, Status.testFail, output, o.now, o.durationMs⟩ : Outcome) :=
                hoc.symm.trans hlk
              cases heq
              simp
      | timedOut output =>
          rw [testMutant_eq_timedOut sevOf t m o st mt output hmt hex] at hoc
          dsimp only at hoc
          have hlk := lookup_addOutcome_fresh st.outcomes
            ⟨m.id, Status.timeout, output, o.now, o.durationMs⟩ hfresh
          have heq : some oc =
              some (⟨m.id, Status.timeout, output, o.now, o.durationMs⟩ : Outcome) :=
            hoc.symm.trans hlk
          cases heq
          simp
      | cancelled =>
          rw [testMutant_eq_cancelled sevOf t m o st mt hmt hex] at hoc
          dsimp only at hoc
          rw [hfresh] at hoc
          exact absurd hoc (by simp)
      | spawnFailed =>
          rw [testMutant_eq_spawnFailed sevOf t m o st mt hmt hex] at hoc
          dsimp only at hoc
          rw [hfresh] at hoc
          exact absurd hoc (by simp)

/-- A loop step that runs to a normal conclusion: the cancellation flag is
set, the slug resolves in the catalog, the mutant applies to the target,
and spawning the test child succeeds. -/
def GoodStep (sevOf : SeverityLookup) (t : Target) (s : Mutant × StepOracle) : Prop :=
  s.2.running = true ∧ (sevOf s.1.mutation_slug t.language).isSome ∧
    (∃ mt, t.mutate s.1 = .ok mt) ∧ s.2.exit ≠ RunExit.spawnFailed

theorem testMutant_no_error (sevOf : SeverityLookup) (t : Target) (m : Mutant)
    (o : StepOracle) (st : RState)
    (hsev : (sevOf m.mutation_slug t.language).isSome)
    (hmut : ∃ mt, t.mutate m = .ok mt) (hexit : o.exit ≠ RunExit.spawnFailed) :
    (testMutant sevOf t m o st).2 = none := by
  obtain ⟨sev, hsev⟩ := Option.isSome_iff_exists.mp hsev
  obtain ⟨mt, hmt⟩ := hmut
  cases hex : o.exit with
  | exited success output =>
      cases success with
      | true =>
          rw [testMutant_eq_exited_true sevOf t m o st mt output hmt hex, hsev]
      | false =>
          rw [testMutant_eq_exited_false sevOf t m o st mt output hmt hex]
  | timedOut output =>
      rw [testMutant_eq_timedOut sevOf t m o st mt output hmt hex]
  | cancelled =>
      rw [testMutant_eq_cancelled sevOf t m o st mt hmt hex]
  | spawnFailed => exact absurd hex hexit

theorem processStep_no_error (sevOf : SeverityLookup) (comprehensive : Bool)
    (allowedSlugs : Option (List String)) (t : Target) (m : Mutant) (o : StepOracle)
    (st : RState)
    (hsev : (sevOf m.mutation_slug t.language).isSome)
    (hmut : ∃ mt, t.mutate m = .ok mt) (hexit : o.exit ≠ RunExit.spawnFailed) :
    (processStep sevOf comprehensive allowedSlugs t m o st).2 = none := by
  obtain ⟨sev, hsev'⟩ := Option.isSome_iff_exists.mp hsev
  unfold processStep
  dsimp only
  split
  · rfl
  · split
    · rename_i e heq
      rw [hsev'] at heq
      cases comprehensive <;> simp at heq
    · rfl
    · split
      · rfl
      · exact testMutant_no_error sevOf t m o st hsev hmut hexit

theorem runLoop_cons_good (sevOf : SeverityLookup) (t : Target)
    (m : Mutant) (o : StepOracle) (rest : List (Mutant × StepOracle)) (st : RState)
    (hg : GoodStep sevOf t (m, o)) :
    runLoop sevOf false none t st ((m, o) :: rest) =
      runLoop sevOf false none t (processStep sevOf false none t m o st).1 rest := by
  obtain ⟨hrun, hsev, hmut, hexit⟩ := hg
  have hne := processStep_no_error sevOf false none t m o st hsev hmut hexit
  have hstep : runLoop sevOf false none t st ((m, o) :: rest) =
      if o.running = true then
        match processStep sevOf false none t m o st with
        | (st', none) => runLoop sevOf false none t st' rest
        | (st', some e) => (st', some e)
      else (st, none) := rfl
  cases hps : processStep sevOf false none t m o st with
  | mk st' res =>
      rw [hps] at hne
      dsimp only at hne
      subst hne
      rw [hstep, if_pos hrun, hps]

theorem runLoop_append_good (sevOf : SeverityLookup) (t : Target)
    (l1 l2 : List (Mutant × StepOracle))
    (hgood : ∀ s ∈ l1, GoodStep sevOf t s) :
    ∀ st : RState, runLoop sevOf false none t st (l1 ++ l2) =
      runLoop sevOf false none t (runLoop sevOf false none t st l1).1 l2 := by
  induction l1 with
  | nil => intro st; rfl
  | cons s rest ih =>
      intro st
      rcases s with ⟨m, o⟩
      have hg := hgood (m, o) (List.mem_cons_self _ _)
      rw [List.cons_append, runLoop_cons_good sevOf t m o (rest ++ l2) st hg,
        runLoop_cons_good sevOf t m o rest st hg]
      exact ih (fun s hs => hgood s (List.mem_cons_of_mem _ hs)) _

theorem runLoop_take_succ (sevOf : SeverityLookup) (t : Target)
    (steps : List (Mutant × StepOracle)) (k : Nat) (hk : k < steps.length)
    (hgood : ∀ s ∈ steps, GoodStep sevOf t s) (st0 : RState) :
    runLoop sevOf false none t st0 (steps.take (k+1)) =
      processStep sevOf false none t (steps.get ⟨k, hk⟩).1 (steps.get ⟨k, hk⟩).2
        (runLoop sevOf false none t st0 (steps.take k)).1 := by
  have htake : steps.take (k+1) = steps.take k ++ [steps.get ⟨k, hk⟩] := by
    rw [List.take_succ, List.getElem?_eq_getElem hk]
    rfl
  rw [htake, runLoop_append_good sevOf t _ _
    (fun s hs => hgood s (List.take_subset k steps hs))]
  have hg := hgood (steps.get ⟨k, hk⟩) (List.get_mem steps k hk)
  rcases hsg : steps.get ⟨k, hk⟩ with ⟨m, o⟩
  rw [hsg] at hg
  rw [runLoop_cons_good sevOf t m o [] _ hg]
  obtain ⟨hrun, hsevg, hmutg, hexitg⟩ := hg
  have hne := processStep_no_error sevOf false none t m o
    (runLoop sevOf false none t st0 (steps.take k)).1 hsevg hmutg hexitg
  cases hps : processStep sevOf false none t m o
      (runLoop sevOf false none t st0 (steps.take k)).1 with
  | mk st'' res =>
      rw [hps] at hne
      dsimp only at hne
      subst hne
      rfl

theorem testMutant_mono (sevOf : SeverityLookup) (t : Target) (m : Mutant)
    (o : StepOracle) (st : RState) :
    st.uncaughtHighSevLines ⊆ (testMutant sevOf t m o st).1.uncaughtHighSevLines ∧
    st.uncaughtMedSevLines ⊆ (testMutant sevOf t m o st).1.uncaughtMedSevLines := by
  cases hmt : t.mutate m with
  | error e =>
      rw [testMutant_eq_mutate_error sevOf t m o st e hmt]
      exact ⟨fun a h => h, fun a h => h⟩
  | ok mt =>
      cases hex : o.exit with
      | exited success output =>
          cases success with
          | true =>
              rw [testMutant_eq_exited_true sevOf t m o st mt output hmt hex]
              cases hsev : sevOf m.mutation_slug t.language with
              | none => exact ⟨fun a h => h, fun a h => h⟩
              | some sev =>
                  dsimp only
                  constructor
                  · split
                    · exact subset_insertLines _ _
                    · exact fun a h => h
                  · split
                    · exact subset_insertLines _ _
                    · exact fun a h => h
          | false =>
              rw [testMutant_eq_exited_false sevOf t m o st mt output hmt hex]
              exact ⟨fun a h => h, fun a h => h⟩
      | timedOut output =>
          rw [testMutant_eq_timedOut sevOf t m o st mt output hmt hex]
          exact ⟨fun a h => h, fun a h => h⟩
      | cancelled =>
          rw [testMutant_eq_cancelled sevOf t m o st mt hmt hex]
          exact ⟨fun a h => h, fun a h => h⟩
      | spawnFailed =>
          rw [testMutant_eq_spawnFailed sevOf t m o st mt hmt hex]
          exact ⟨fun a h => h, fun a h => h⟩

theorem processStep_mono (sevOf : SeverityLookup) (comprehensive : Bool)
    (allowedSlugs : Option (List String)) (t : Target) (m : Mutant) (o : StepOracle)
    (st : RState) :
    st.uncaughtHighSevLines ⊆
      (processStep sevOf comprehensive allowedSlugs t m o st).1.uncaughtHighSevLines ∧
    st.uncaughtMedSevLines ⊆
      (processStep sevOf comprehensive allowedSlugs t m o st).1.uncaughtMedSevLines := by
  unfold processStep
  dsimp only
  split
  · exact ⟨fun a h => h, fun a h => h⟩
  · split
    · exact ⟨fun a h => h, fun a h => h⟩
    · exact ⟨fun a h => h, fun a h => h⟩
    · split
      · exact ⟨fun a h => h, fun a h => h⟩
      · exact testMutant_mono sevOf t m o st

theorem runLoop_mono (sevOf : SeverityLookup) (comprehensive : Bool)
    (allowedSlugs : Option (List String)) (t : Target)
    (steps : List (Mutant × StepOracle)) :
    ∀ st : RState,
      st.uncaughtHighSevLines ⊆
        (runLoop sevOf comprehensive allowedSlugs t st steps).1.uncaughtHighSevLines ∧
      st.uncaughtMedSevLines ⊆
        (runLoop sevOf comprehensive allowedSlugs t st steps).1.uncaughtMedSevLines := by
  induction steps with
  | nil => intro st; exact ⟨fun a h => h, fun a h => h⟩
  | cons s rest ih =>
      intro st
      rcases s with ⟨m, o⟩
      unfold runLoop
      split
      · cases hps : processStep sevOf comprehensive allowedSlugs t m o st with
        | mk st' res =>
            have hmono := processStep_mono sevOf comprehensive allowedSlugs t m o st
            rw [hps] at hmono
            cases res with
            | none =>
                have hrest := ih st'
                exact ⟨fun a h => hrest.1 (hmono.1 h), fun a h => hrest.2 (hmono.2 h)⟩
            | some e => exact hmono
      · exact ⟨fun a h => h, fun a h => h⟩

theorem processStep_tracks (sevOf : SeverityLookup) (t : Target) (m : Mutant)
    (o : StepOracle) (st : RState) (sev : MutationSeverity) (mt : List Nat)
    (output : String)
    (hfresh : lookupOutcome st.outcomes m.id = none)
    (hsev : sevOf m.mutation_slug t.language = some sev)
    (hskip : shouldSkipMutant st sev.toNumeric m = false)
    (hmt : t.mutate m = .ok mt) (hex : o.exit = .exited true output) :
    (sev.toNumeric = 0 →
      m.lineList ⊆ (processStep sevOf false none t m o st).1.uncaughtHighSevLines) ∧
    (sev.toNumeric = 1 →
      m.lineList ⊆ (processStep sevOf false none t m o st).1.uncaughtMedSevLines) := by
  rw [processStep_eq_test sevOf t m o st sev hfresh hsev hskip,
    testMutant_eq_exited_true sevOf t m o st mt output hmt hex, hsev]
  dsimp only
  constructor
  · intro h0
    rw [if_pos h0]
    exact fun a ha => mem_insertLines _ _ _ ha
  · intro h1
    rw [if_pos h1]
    exact fun a ha => mem_insertLines _ _ _ ha

/-- C3: in non-comprehensive mode, during a target's mutant iteration:
(a) a Medium mutant with no prior outcome gets a Skipped outcome (with the
fixed message and duration 0) exactly when its line range intersects the
uncaught-High line set accumulated so far; (b) a Low mutant exactly when
its line range intersects the union of the uncaught-High and uncaught-
Medium line sets; (c) a High mutant is never given a Skipped outcome; and
(d) consequently, when an earlier High- or Medium-severity step of the
iteration tested its mutant, got Uncaught and was not itself pruned, any
later Low mutant with no prior outcome whose line range overlaps it ends
the step with a Skipped outcome, not a tested one. -/
theorem severity_pruning (sevOf : SeverityLookup) (t : Target) :
    (∀ (m : Mutant) (o : StepOracle) (st : RState),
      lookupOutcome st.outcomes m.id = none →
      sevOf m.mutation_slug t.language = some MutationSeverity.medium →
      ((lookupOutcome (processStep sevOf false none t m o st).1.outcomes m.id =
          some (skippedOutcome m.id o.now)) ↔
        ∃ line ∈ m.lineList, line ∈ st.uncaughtHighSevLines)) ∧
    (∀ (m : Mutant) (o : StepOracle) (st : RState),
      lookupOutcome st.outcomes m.id = none →
      sevOf m.mutation_slug t.language = some MutationSeverity.low →
      ((lookupOutcome (processStep sevOf false none t m o st).1.outcomes m.id =
          some (skippedOutcome m.id o.now)) ↔
        ∃ line ∈ m.lineList,
          line ∈ st.uncaughtHighSevLines ∨ line ∈ st.uncaughtMedSevLines)) ∧
    (∀ (m : Mutant) (o : StepOracle) (st : RState) (oc : Outcome),
      lookupOutcome st.outcomes m.id = none →
      sevOf m.mutation_slug t.language = some MutationSeverity.high →
      lookupOutcome (processStep sevOf false none t m o st).1.outcomes m.id = some oc →
      oc.status ≠ Status.skipped) ∧
    (∀ (steps : List (Mutant × StepOracle)) (st0 : RState) (i j : Nat)
      (hj : j < steps.length) (hi : i < steps.length),
      j < i →
      (∀ s ∈ steps, GoodStep sevOf t s) →
      ∀ sj : MutationSeverity,
      sevOf (steps.get ⟨j, hj⟩).1.mutation_slug t.language = some sj →
      (sj = MutationSeverity.high ∨ sj = MutationSeverity.medium) →
      (∃ out, (steps.get ⟨j, hj⟩).2.exit = RunExit.exited true out) →
      lookupOutcome (runLoop sevOf false none t st0 (steps.take j)).1.outcomes
        (steps.get ⟨j, hj⟩).1.id = none →
      shouldSkipMutant (runLoop sevOf false none t st0 (steps.take j)).1 sj.toNumeric
        (steps.get ⟨j, hj⟩).1 = false →
      sevOf (steps.get ⟨i, hi⟩).1.mutation_slug t.language = some MutationSeverity.low →
      lookupOutcome (runLoop sevOf false none t st0 (steps.take i)).1.outcomes
        (steps.get ⟨i, hi⟩).1.id = none →
      (∃ line ∈ (steps.get ⟨j, hj⟩).1.lineList, line ∈ (steps.get ⟨i, hi⟩).1.lineList) →
      lookupOutcome (runLoop sevOf false none t st0 (steps.take (i+1))).1.outcomes
        (steps.get ⟨i, hi⟩).1.id =
        some (skippedOutcome (steps.get ⟨i, hi⟩).1.id (steps.get ⟨i, hi⟩).2.now)) := by
  have partA : ∀ (m : Mutant) (o : StepOracle) (st : RState),
      lookupOutcome st.outcomes m.id = none →
      sevOf m.mutation_slug t.language = some MutationSeverity.medium →
      ((lookupOutcome (processStep sevOf false none t m o st).1.outcomes m.id =
          some (skippedOutcome m.id o.now)) ↔
        ∃ line ∈ m.lineList, line ∈ st.uncaughtHighSevLines) := by
    intro m o st hfresh hsev
    by_cases hs : shouldSkipMutant st MutationSeverity.medium.toNumeric m = true
    · rw [processStep_eq_skip sevOf t m o st _ hfresh hsev hs]
      dsimp only
      constructor
      · intro _
        simpa [shouldSkipMutant, MutationSeverity.toNumeric] using hs
      · intro _
        exact lookup_addOutcome_fresh st.outcomes (skippedOutcome m.id o.now) hfresh
    · rw [Bool.not_eq_true] at hs
      rw [processStep_eq_test sevOf t m o st _ hfresh hsev hs]
      constructor
      · intro h
        exact absurd rfl (testMutant_never_skipped sevOf t m o st hfresh _ h)
      · intro hex
        exfalso
        have htrue : shouldSkipMutant st MutationSeverity.medium.toNumeric m = true := by
          simpa [shouldSkipMutant, MutationSeverity.toNumeric] using hex
        rw [hs] at htrue
        exact Bool.false_ne_true htrue
  have partB : ∀ (m : Mutant) (o : StepOracle) (st : RState),
      lookupOutcome st.outcomes m.id = none →
      sevOf m.mutation_slug t.language = some MutationSeverity.low →
      ((lookupOutcome (processStep sevOf false none t m o st).1.outcomes m.id =
          some (skippedOutcome m.id o.now)) ↔
        ∃ line ∈ m.lineList,
          line ∈ st.uncaughtHighSevLines ∨ line ∈ st.uncaughtMedSevLines) := by
    intro m o st hfresh hsev
    by_cases hs : shouldSkipMutant st MutationSeverity.low.toNumeric m = true
    · rw [processStep_eq_skip sevOf t m o st _ hfresh hsev hs]
      dsimp only
      constructor
      · intro _
        simpa [shouldSkipMutant, MutationSeverity.toNumeric] using hs
      · intro _
        exact lookup_addOutcome_fresh st.outcomes (skippedOutcome m.id o.now) hfresh
    · rw [Bool.not_eq_true] at hs
      rw [processStep_eq_test sevOf t m o st _ hfresh hsev hs]
      constructor
      · intro h
        exact absurd rfl (testMutant_never_skipped sevOf t m o st hfresh _ h)
      · intro hex
        exfalso
        have htrue : shouldSkipMutant st MutationSeverity.low.toNumeric m = true := by
          simpa [shouldSkipMutant, MutationSeverity.toNumeric] using hex
        rw [hs] at htrue
        exact Bool.false_ne_true htrue
  have partC : ∀ (m : Mutant) (o : StepOracle) (st : RState) (oc : Outcome),
      lookupOutcome st.outcomes m.id = none →
      sevOf m.mutation_slug t.language = some MutationSeverity.high →
      lookupOutcome (processStep sevOf false none t m o st).1.outcomes m.id = some oc →
      oc.status ≠ Status.skipped := by
    intro m o st oc hfresh hsev hoc
    rw [processStep_eq_test sevOf t m o st _ hfresh hsev rfl] at hoc
    exact testMutant_never_skipped sevOf t m o st hfresh oc hoc
  refine ⟨partA, partB, partC, ?_⟩
  intro steps st0 i j hj hi hij hgood sj hsevj hsjnum hexitj hfreshj hnoskipj hsevi
    hfreshi hoverlap
  obtain ⟨outj, hexitj⟩ := hexitj
  obtain ⟨mtj, hmtj⟩ := (hgood _ (List.get_mem steps j hj)).2.2.1
  have htr := processStep_tracks sevOf t (steps.get ⟨j, hj⟩).1 (steps.get ⟨j, hj⟩).2
    (runLoop sevOf false none t st0 (steps.take j)).1 sj mtj outj hfreshj hsevj hnoskipj
    hmtj hexitj
  have hstepj := runLoop_take_succ sevOf t steps j hj hgood st0
  have hdecomp : steps.take i =
      steps.take (j+1) ++ ((steps.drop (j+1)).take (i - (j+1))) := by
    have hsum : (j+1) + (i - (j+1)) = i := by omega
    rw [← List.take_add, hsum]
  have happ := runLoop_append_good sevOf t (steps.take (j+1))
    ((steps.drop (j+1)).take (i - (j+1)))
    (fun s hs => hgood s (List.take_subset (j+1) steps hs)) st0
  have hmono := runLoop_mono sevOf false none t ((steps.drop (j+1)).take (i - (j+1)))
    (runLoop sevOf false none t st0 (steps.take (j+1))).1
  obtain ⟨line, hlj, hli⟩ := hoverlap
  have hline_in :
      line ∈ (runLoop sevOf false none t st0 (steps.take i)).1.uncaughtHighSevLines ∨
      line ∈ (runLoop sevOf false none t st0 (steps.take i)).1.uncaughtMedSevLines := by
    rw [hdecomp, happ]
    rcases hsjnum with hhigh | hmed
    · left
      apply hmono.1
      have hsub := htr.1 (by rw [hhigh]; rfl)
      have : line ∈ (processStep sevOf false none t (steps.get ⟨j, hj⟩).1
          (steps.get ⟨j, hj⟩).2
          (runLoop sevOf false none t st0 (steps.take j)).1).1.uncaughtHighSevLines :=
        hsub hlj
      rw [← hstepj] at this
      exact this
    · right
      apply hmono.2
      have hsub := htr.2 (by rw [hmed]; rfl)
      have : line ∈ (processStep sevOf false none t (steps.get ⟨j, hj⟩).1
          (steps.get ⟨j, hj⟩).2
          (runLoop sevOf false none t st0 (steps.take j)).1).1.uncaughtMedSevLines :=
        hsub hlj
      rw [← hstepj] at this
      exact this
  have hskipi : shouldSkipMutant (runLoop sevOf false none t st0 (steps.take i)).1
      MutationSeverity.low.toNumeric (steps.get ⟨i, hi⟩).1 = true := by
    simp only [shouldSkipMutant, MutationSeverity.toNumeric]
    rw [List.any_eq_true]
    exact ⟨line, hli, by simpa using hline_in⟩
  rw [runLoop_take_succ sevOf t steps i hi hgood st0]
  rw [processStep_eq_skip sevOf t (steps.get ⟨i, hi⟩).1 (steps.get ⟨i, hi⟩).2
    (runLoop sevOf false none t st0 (steps.take i)).1 MutationSeverity.low hfreshi
    hsevi hskipi]
  dsimp only
  exact lookup_addOutcome_fresh _
    (skippedOutcome (steps.get ⟨i, hi⟩).1.id (steps.get ⟨i, hi⟩).2.now) hfreshi

/-- Witness for C3: a Medium mutant on line 1 is skipped when line 1 is
already in the uncaught-High set. -/
theorem severity_pruning_witness :
    lookupOutcome (processStep (fun s _ => if s = "IF" then some .medium else some .high)
      false none ⟨1, "p", strBytes "x", "FunC"⟩
      ⟨9, 1, 0, 0, strBytes "x", strBytes "false", "IF"⟩ ⟨true, .exited true "", 7, 0⟩
      ⟨strBytes "x", false, none, [1], [], [], false⟩).1.outcomes 9 =
      some (skippedOutcome 9 7) :=
  ((severity_pruning (fun s _ => if s = "IF" then some .medium else some .high)
      ⟨1, "p", strBytes "x", "FunC"⟩).1
    ⟨9, 1, 0, 0, strBytes "x", strBytes "false", "IF"⟩ ⟨true, .exited true "", 7, 0⟩
    ⟨strBytes "x", false, none, [1], [], [], false⟩ rfl (by simp)).mpr
    ⟨1, by decide, by decide⟩

end RunnerTheorems

end Muton
